import Mathlib

/-!
Verification of the VDI 3682 diagram layout and routing engine
(`frontend/src/components/Diagram/layout.ts` and the connection router)
via a shallow embedding in Lean.

Conventions of the embedding:
* JavaScript numbers are modelled as `ℚ` (all arithmetic performed by the
  engine on coordinates is exact on the inputs we reason about).
* `Map`/`Set` objects that are only queried by key are modelled as functions
  `String → _` respectively membership in a `List String`.
* JavaScript string comparison (used by `Array.sort` on ids) is modelled by
  code-point lexicographic order `strLe` on the character list.
* `undefined` is modelled by `Option`.
-/

namespace FPD

/- ---------- Model types (types/fpb.ts) ---------- -/

inductive StateType
  | product
  | energy
  | information
deriving DecidableEq, Repr, Inhabited

inductive FlowType
  | flow
  | alternativeFlow
  | parallelFlow
deriving DecidableEq, Repr, Inhabited

inductive StatePlacement
  | boundary
  | boundaryTop
  | boundaryBottom
  | boundaryLeft
  | boundaryRight
  | internal
deriving DecidableEq, Repr, Inhabited

structure State where
  id : String
  state_type : StateType
  label : String
  placement : Option StatePlacement
  line_number : Option Nat
  system_id : Option String
deriving DecidableEq, Repr, Inhabited

structure ProcessOperator where
  id : String
  label : String
  line_number : Option Nat
  system_id : Option String
deriving DecidableEq, Repr, Inhabited

structure TechnicalResource where
  id : String
  label : String
  line_number : Option Nat
  system_id : Option String
deriving DecidableEq, Repr, Inhabited

structure Flow where
  id : String
  source_ref : String
  target_ref : String
  flow_type : FlowType
  line_number : Option Nat
  system_id : Option String
deriving DecidableEq, Repr, Inhabited

structure Usage where
  id : String
  process_operator_ref : String
  technical_resource_ref : String
  line_number : Option Nat
  system_id : Option String
deriving DecidableEq, Repr, Inhabited

structure SystemLimit where
  id : String
  label : String
deriving DecidableEq, Repr, Inhabited

structure ProcessModel where
  title : String
  system_limits : List SystemLimit
  states : List State
  process_operators : List ProcessOperator
  technical_resources : List TechnicalResource
  flows : List Flow
  usages : List Usage
deriving DecidableEq, Repr, Inhabited

/- ---------- Diagram types (types/diagram.ts) ---------- -/

inductive ElementType
  | state
  | processOperator
  | technicalResource
deriving DecidableEq, Repr, Inhabited

inductive Side
  | top
  | bottom
  | left
  | right
deriving DecidableEq, Repr, Inhabited

structure DiagramElement where
  id : String
  type : ElementType
  label : String
  x : ℚ
  y : ℚ
  width : ℚ
  height : ℚ
  stateType : Option StateType
  line_number : Option Nat
deriving DecidableEq, Repr, Inhabited

structure DiagramConnection where
  id : String
  sourceId : String
  targetId : String
  flowType : Option FlowType
  isUsage : Bool
  line_number : Option Nat
  sourceSide : Option Side
  targetSide : Option Side
deriving DecidableEq, Repr, Inhabited

structure SystemLimitBounds where
  id : String
  label : String
  x : ℚ
  y : ℚ
  width : ℚ
  height : ℚ
deriving DecidableEq, Repr, Inhabited

structure DiagramData where
  elements : List DiagramElement
  connections : List DiagramConnection
  systemLimits : List SystemLimitBounds
deriving DecidableEq, Repr, Inhabited

structure LayoutConfig where
  padding : ℚ
  hGap : ℚ
  vGap : ℚ
  systemLimitPadding : ℚ
  resourceOffsetX : ℚ
deriving DecidableEq, Repr, Inhabited

structure Point where
  x : ℚ
  y : ℚ
deriving DecidableEq, Repr, Inhabited

structure RoutedConnection where
  connection : DiagramConnection
  points : List Point
  isDirect : Bool
deriving DecidableEq, Repr, Inhabited

/- ---------- Generic helpers ---------- -/

/-- Code-point lexicographic order on strings, as a Bool-valued comparator.
JavaScript `Array.sort()` compares strings by code units; the engine's ids
are ASCII so code-point order is the faithful model. -/
def strLeChars : List Char → List Char → Bool
  | [], _ => true
  | _ :: _, [] => false
  | c :: cs, d :: ds =>
    if c.toNat < d.toNat then true
    else if d.toNat < c.toNat then false
    else strLeChars cs ds

def strLe (a b : String) : Bool := strLeChars a.data b.data

/-- `strLe` as a decidable relation.  JavaScript `Array.sort` is a stable
sort; for a total transitive comparator every stable sort returns the same
list, so the structurally recursive `List.insertionSort` models it
faithfully. -/
def strLeP (a b : String) : Prop := strLe a b = true

instance : DecidableRel strLeP := fun _ _ => by unfold strLeP; infer_instance

instance : IsTotal String strLeP := by
  constructor
  suffices h : ∀ l₁ l₂ : List Char, strLeChars l₁ l₂ = true ∨ strLeChars l₂ l₁ = true by
    intro a b
    exact h a.data b.data
  intro l₁
  induction l₁ with
  | nil => intro l₂; exact Or.inl rfl
  | cons c cs ih =>
    intro l₂
    cases l₂ with
    | nil => exact Or.inr rfl
    | cons d ds =>
      rcases Nat.lt_trichotomy c.toNat d.toNat with h1 | h1 | h1
      · left; simp [strLeChars, h1]
      · rcases ih ds with h | h
        · left; simp [strLeChars, h1, h]
        · right; simp [strLeChars, h1.symm, h]
      · right; simp [strLeChars, h1]

instance : IsTrans String strLeP := by
  constructor
  suffices h : ∀ l₁ l₂ l₃ : List Char, strLeChars l₁ l₂ = true → strLeChars l₂ l₃ = true →
      strLeChars l₁ l₃ = true by
    intro a b c hab hbc
    exact h a.data b.data c.data hab hbc
  intro l₁
  induction l₁ with
  | nil => intro l₂ l₃ _ _; rfl
  | cons c cs ih =>
    intro l₂ l₃ h12 h23
    cases l₂ with
    | nil => simp [strLeChars] at h12
    | cons d ds =>
      cases l₃ with
      | nil => simp [strLeChars] at h23
      | cons e es =>
        simp only [strLeChars] at h12 h23 ⊢
        split_ifs at h12 h23 ⊢ <;>
          first
            | rfl
            | exact ih ds es h12 h23
            | (exfalso; omega)


/-- Keep the first occurrence of each element (JavaScript `Set` insertion
order). -/
def firstDedupAux [DecidableEq α] (seen : List α) : List α → List α
  | [] => []
  | a :: l => if a ∈ seen then firstDedupAux seen l else a :: firstDedupAux (a :: seen) l

def firstDedup [DecidableEq α] (l : List α) : List α := firstDedupAux [] l

/-- `Math.min` over a non-empty list of naturals (callers guard emptiness;
`0` stands in for the unreachable empty case). -/
def listMinNat : List Nat → Nat
  | [] => 0
  | x :: xs => xs.foldl min x

/-- `Math.max` over a non-empty list of naturals. -/
def listMaxNat : List Nat → Nat
  | [] => 0
  | x :: xs => xs.foldl max x

/-- `Math.max` over a non-empty list of rationals. -/
def listMaxRat : List ℚ → ℚ
  | [] => 0
  | x :: xs => xs.foldl max x

/- ---------- Phase 0: connectivity graph (layout.ts, buildConnectivityGraph) ---------- -/

def stateIdsOf (states : List State) : List String := states.map (·.id)

def opIdsOf (pos : List ProcessOperator) : List String := pos.map (·.id)

/-- The first branch of the flow classification: `State → PO`. -/
def isStateToPo (stateIds poIds : List String) (f : Flow) : Prop :=
  f.source_ref ∈ stateIds ∧ f.target_ref ∈ poIds

/-- The `else if` branch of the flow classification: `PO → State` (taken only
when the first branch did not fire). -/
def isPoToState (stateIds poIds : List String) (f : Flow) : Prop :=
  ¬(f.source_ref ∈ stateIds ∧ f.target_ref ∈ poIds) ∧
    f.source_ref ∈ poIds ∧ f.target_ref ∈ stateIds

instance (stateIds poIds : List String) (f : Flow) :
    Decidable (isStateToPo stateIds poIds f) := by
  unfold isStateToPo; infer_instance

instance (stateIds poIds : List String) (f : Flow) :
    Decidable (isPoToState stateIds poIds f) := by
  unfold isPoToState; infer_instance

structure ConnectivityGraph where
  stateToTargetPOs : String → List String
  stateToSourcePOs : String → List String
  poToInputStates : String → List String
  poToOutputStates : String → List String
  trToPo : String → Option String
  allFlowRefs : List String
  poIds : List String
  altFlowOnlySinks : List String

/-- States that receive at least one `ALTERNATIVE_FLOW` from a PO. -/
def stateHasAltFromPo (stateIds poIds : List String) (flows : List Flow) : List String :=
  flows.filterMap fun f =>
    if isPoToState stateIds poIds f ∧ f.flow_type = FlowType.alternativeFlow then
      some f.target_ref
    else none

/-- States that receive at least one non-alternative flow from a PO (the
`else` branch of the flow-type test, i.e. regular *and* parallel flows). -/
def stateHasRegularFromPo (stateIds poIds : List String) (flows : List Flow) : List String :=
  flows.filterMap fun f =>
    if isPoToState stateIds poIds f ∧ f.flow_type ≠ FlowType.alternativeFlow then
      some f.target_ref
    else none

def buildConnectivityGraph (states : List State) (pos : List ProcessOperator)
    (flows : List Flow) (usages : List Usage) : ConnectivityGraph :=
  let stateIds := stateIdsOf states
  let poIds := opIdsOf pos
  { stateToTargetPOs := fun sid =>
      if sid ∈ stateIds then
        (flows.filter fun f =>
            decide (isStateToPo stateIds poIds f ∧ f.source_ref = sid)).map (·.target_ref)
      else []
    stateToSourcePOs := fun sid =>
      if sid ∈ stateIds then
        (flows.filter fun f =>
            decide (isPoToState stateIds poIds f ∧ f.target_ref = sid)).map (·.source_ref)
      else []
    poToInputStates := fun pid =>
      if pid ∈ poIds then
        (flows.filter fun f =>
            decide (isStateToPo stateIds poIds f ∧ f.target_ref = pid)).map (·.source_ref)
      else []
    poToOutputStates := fun pid =>
      if pid ∈ poIds then
        (flows.filter fun f =>
            decide (isPoToState stateIds poIds f ∧ f.source_ref = pid)).map (·.target_ref)
      else []
    trToPo := fun tid =>
      (usages.reverse.find? fun u => u.technical_resource_ref == tid).map
        (·.process_operator_ref)
    allFlowRefs := flows.flatMap fun f => [f.source_ref, f.target_ref]
    poIds := poIds
    altFlowOnlySinks :=
      (stateHasAltFromPo stateIds poIds flows).filter fun sid =>
        sid ∉ stateHasRegularFromPo stateIds poIds flows }

/- ---------- Phase 2: state classification (layout.ts, classifyState) ---------- -/

inductive StateCategory
  | boundaryTop
  | boundaryBottom
  | boundaryLeft
  | boundaryRight
  | internal
  | disconnected
deriving DecidableEq, Repr, Inhabited

/-- `productBoundarySide` from layout.ts.  `poRank = none` models the `null`
argument; rank lookups fall back to `0` (`?? 0`). -/
def productBoundarySide (isInput : Bool) (poRank : Option (String → Option Nat))
    (connectedPOs : List String) (maxRank : ℤ) : StateCategory :=
  if isInput then
    match poRank with
    | some rank =>
      if connectedPOs ≠ [] ∧ 0 < maxRank then
        let minRank := listMinNat (connectedPOs.map fun pid => (rank pid).getD 0)
        if 0 < minRank then .boundaryLeft else .boundaryTop
      else .boundaryTop
    | none => .boundaryTop
  else
    match poRank with
    | some rank =>
      if connectedPOs ≠ [] ∧ 0 < maxRank then
        let maxSrcRank := listMaxNat (connectedPOs.map fun pid => (rank pid).getD 0)
        if (maxSrcRank : ℤ) < maxRank then .boundaryRight else .boundaryBottom
      else .boundaryBottom
    | none => .boundaryBottom

/-- `classifyState` from layout.ts, translated clause by clause.  Note the
source returns `disconnected` for states outside `allFlowRefs` *before*
consulting the explicit placement annotation. -/
def classifyState (s : State) (g : ConnectivityGraph)
    (poRank : Option (String → Option Nat)) (maxRank : ℤ) : StateCategory :=
  if s.id ∉ g.allFlowRefs then .disconnected
  else
    let sourcePOs := g.stateToSourcePOs s.id
    let targetPOs := g.stateToTargetPOs s.id
    let isPureSource : Bool := !targetPOs.isEmpty && sourcePOs.isEmpty
    let isPureSink : Bool := !sourcePOs.isEmpty && targetPOs.isEmpty
    let isIntermediate : Bool := !sourcePOs.isEmpty && !targetPOs.isEmpty
    if s.placement = some .boundaryTop then .boundaryTop
    else if s.placement = some .boundaryBottom then .boundaryBottom
    else if s.placement = some .boundaryLeft then .boundaryLeft
    else if s.placement = some .boundaryRight then .boundaryRight
    else if s.placement = some .internal then .internal
    else if s.placement = some .boundary then
      if isPureSource then
        if s.state_type = .product then productBoundarySide true poRank targetPOs maxRank
        else .boundaryLeft
      else if isPureSink then
        if s.state_type = .product then productBoundarySide false poRank sourcePOs maxRank
        else .boundaryRight
      else if s.state_type = .product then .boundaryTop
      else .boundaryLeft
    else
      if isIntermediate then .internal
      else if isPureSource then
        if s.state_type = .product then productBoundarySide true poRank targetPOs maxRank
        else .boundaryLeft
      else if isPureSink then
        if s.state_type = .product then productBoundarySide false poRank sourcePOs maxRank
        else .boundaryRight
      else .boundaryTop

/- ---------- Phase 1: topological sort (layout.ts, topologicalSortPOs) ---------- -/

/-- Successors of one PO in the precedence graph built via intermediate
states (states with both incoming and outgoing operator edges). -/
def poSuccessors (g : ConnectivityGraph) (states : List State) (poIds : List String)
    (src : String) : List String :=
  if src ∈ poIds then
    firstDedup <| states.flatMap fun st =>
      let sp := g.stateToSourcePOs st.id
      let tp := g.stateToTargetPOs st.id
      if sp ≠ [] ∧ tp ≠ [] ∧ src ∈ sp then
        tp.filter fun tgt => tgt ≠ src ∧ tgt ∈ poIds
      else []
  else []

/-- Predecessor set of one PO in the precedence graph. -/
def poPredecessors (g : ConnectivityGraph) (states : List State) (poIds : List String)
    (tgt : String) : List String :=
  if tgt ∈ poIds then
    firstDedup <| states.flatMap fun st =>
      let sp := g.stateToSourcePOs st.id
      let tp := g.stateToTargetPOs st.id
      if sp ≠ [] ∧ tp ≠ [] ∧ tgt ∈ tp then
        sp.filter fun src => src ≠ tgt ∧ src ∈ poIds
      else []
  else []

/-- Comparator used to break cycles: lowest remaining in-degree first, ties
by ascending id. -/
def cycleLe (inDeg : String → Nat) (a b : String) : Bool :=
  if inDeg a ≠ inDeg b then decide (inDeg a < inDeg b) else strLe a b

def cycleLeP (inDeg : String → Nat) (a b : String) : Prop := cycleLe inDeg a b = true

instance (inDeg : String → Nat) : DecidableRel (cycleLeP inDeg) := fun _ _ => by
  unfold cycleLeP; infer_instance

instance (inDeg : String → Nat) : IsTotal String (cycleLeP inDeg) := by
  constructor
  intro a b
  by_cases h : inDeg a = inDeg b
  · rcases (inferInstanceAs (IsTotal String strLeP)).total a b with hs | hs
    · left; simpa [cycleLeP, cycleLe, h] using hs
    · right; simpa [cycleLeP, cycleLe, h] using hs
  · rcases Nat.lt_or_ge (inDeg a) (inDeg b) with hlt | hge
    · left; simp [cycleLeP, cycleLe, h, hlt]
    · right
      have hlt : inDeg b < inDeg a := lt_of_le_of_ne hge (Ne.symm h)
      simp [cycleLeP, cycleLe, Ne.symm h, hlt]

instance (inDeg : String → Nat) : IsTrans String (cycleLeP inDeg) := by
  constructor
  intro a b c hab hbc
  simp only [cycleLeP, cycleLe] at hab hbc ⊢
  split_ifs at hab hbc ⊢ <;>
    simp only [decide_eq_true_eq, ne_eq, not_not] at * <;>
    first
      | exact IsTrans.trans (r := strLeP) a b c hab hbc
      | omega

/-- One round's ready set: all zero in-degree operators sorted ascending, or
the single forced candidate when a cycle blocks progress. -/
def kahnBatch (inDeg : String → Nat) (remaining : List String) : List String :=
  let ready := (remaining.filter fun id => inDeg id = 0).insertionSort strLeP
  if ready.isEmpty then
    match remaining.insertionSort (cycleLeP inDeg) with
    | [] => []
    | m :: _ => [m]
  else ready

/-- Emitting one operator: delete it from `remaining` and decrement the
in-degree of each of its still-remaining successors. -/
def kahnStep (succs : String → List String) (acc : List String × (String → Nat))
    (poId : String) : List String × (String → Nat) :=
  let remaining' := acc.1.erase poId
  (remaining', fun id =>
    if id ∈ succs poId ∧ id ∈ remaining' then acc.2 id - 1 else acc.2 id)

/-- The while loop of Kahn's algorithm, fuelled: the fuel is the initial
number of operators, which the source asserts suffices (proved below). -/
def kahnLoopAux (succs : String → List String) :
    Nat → List String → (String → Nat) → List (List String)
  | 0, _, _ => []
  | fuel + 1, remaining, inDeg =>
    if remaining.isEmpty then []
    else
      let batch := kahnBatch inDeg remaining
      let next := batch.foldl (kahnStep succs) (remaining, inDeg)
      batch :: kahnLoopAux succs fuel next.1 next.2

/-- The per-round batches of the sequencing loop. -/
def topoBatches (pos : List ProcessOperator) (states : List State)
    (g : ConnectivityGraph) : List (List String) :=
  let poIds := opIdsOf pos
  let remaining0 := firstDedup (pos.map (·.id))
  kahnLoopAux (poSuccessors g states poIds) remaining0.length remaining0
    (fun id => (poPredecessors g states poIds id).length)

/-- `topologicalSortPOs` from layout.ts: the emitted order and the rank
association (the source assigns `currentRank`, incremented once per emitted
operator, i.e. the operator's position in the order). -/
def topologicalSortPOs (pos : List ProcessOperator) (states : List State)
    (g : ConnectivityGraph) : List String × List (String × Nat) :=
  let poOrder := (topoBatches pos states g).flatten
  (poOrder, poOrder.enum.map fun p => (p.2, p.1))

/- ---------- Phase 3: state affinities (layout.ts, assignStateAffinities) ---------- -/

structure StateAffinity where
  category : StateCategory
  affiliatedRank : Nat
  sourceRank : Option Nat
  targetRank : Option Nat
deriving DecidableEq, Repr, Inhabited

def assignStateAffinities (states : List State) (g : ConnectivityGraph)
    (poRank : String → Option Nat) (maxRank : ℤ) : List (String × StateAffinity) :=
  states.map fun s =>
    let category := classifyState s g (some poRank) maxRank
    let sourcePOs := g.stateToSourcePOs s.id
    let targetPOs := g.stateToTargetPOs s.id
    let aff : StateAffinity :=
      if category = .boundaryLeft then
        { category := category
          affiliatedRank :=
            if targetPOs ≠ [] then listMinNat (targetPOs.map fun pid => (poRank pid).getD 0)
            else 0
          sourceRank := none, targetRank := none }
      else if category = .boundaryRight then
        { category := category
          affiliatedRank :=
            if sourcePOs ≠ [] then listMaxNat (sourcePOs.map fun pid => (poRank pid).getD 0)
            else 0
          sourceRank := none, targetRank := none }
      else if category = .internal then
        let sourceRank :=
          if sourcePOs ≠ [] then some (listMaxNat (sourcePOs.map fun pid => (poRank pid).getD 0))
          else none
        let targetRank :=
          if targetPOs ≠ [] then some (listMinNat (targetPOs.map fun pid => (poRank pid).getD 0))
          else none
        { category := category
          affiliatedRank := (sourceRank.orElse fun _ => targetRank).getD 0
          sourceRank := sourceRank, targetRank := targetRank }
      else
        { category := category, affiliatedRank := 0, sourceRank := none, targetRank := none }
    (s.id, aff)

/- ---------- Layout constants (layout.ts / designTokens.ts) ---------- -/

def DEFAULT_CONFIG : LayoutConfig :=
  { padding := 40, hGap := 40, vGap := 80, systemLimitPadding := 50, resourceOffsetX := 40 }

def INTERNAL_V_GAP : ℚ := 40
def BOUNDARY_EXTRA_V : ℚ := 40
def STATE_LABEL_ABOVE : ℚ := 35
def STATE_MAX_W : ℚ := 55
def STATE_H : ℚ := 50
def PROCESS_W : ℚ := 150
def PROCESS_H : ℚ := 80
def RESOURCE_W : ℚ := 150
def RESOURCE_H : ℚ := 80

/-- `shapes.state[type].width` from designTokens.ts. -/
def stateShapeW : StateType → ℚ
  | .product => 50
  | .energy => 50
  | .information => 55

/-- `shapes.state[type].height` from designTokens.ts. -/
def stateShapeH : StateType → ℚ := fun _ => 50

/-- `typography.fontSize.stateLabel * 0.6`. -/
def stateLabelCharW : ℚ := 33 / 5

/- ---------- Geometry helpers (layout.ts) ---------- -/

def distributeAlongAxis (count : Nat) (itemSize gap startPos : ℚ) : List ℚ :=
  (List.range count).map fun i => startPos + (i : ℚ) * (itemSize + gap)

def distributeCentered (count : Nat) (itemSize gap centerPos : ℚ) : List ℚ :=
  if count = 0 then []
  else
    let totalSize := (count : ℚ) * itemSize + ((count : ℚ) - 1) * gap
    distributeAlongAxis count itemSize gap (centerPos - totalSize / 2)

/-- Running minimum where `none` models the `Infinity` start value. -/
def optMin (a : Option ℚ) (v : ℚ) : Option ℚ :=
  some (match a with | none => v | some x => min x v)

/-- Running maximum where `none` models the `-Infinity` start value. -/
def optMax (a : Option ℚ) (v : ℚ) : Option ℚ :=
  some (match a with | none => v | some x => max x v)

/-- Disconnected states placed left-to-right, x advancing by each shape's
width plus the gap. -/
def rowPlaceStates (x y hGap : ℚ) : List State → List DiagramElement
  | [] => []
  | s :: rest =>
    { id := s.id, type := .state, label := s.label, x := x, y := y,
      width := stateShapeW s.state_type, height := stateShapeH s.state_type,
      stateType := some s.state_type, line_number := none } ::
      rowPlaceStates (x + stateShapeW s.state_type + hGap) y hGap rest

/-- X coordinate reached after a run of disconnected states. -/
def afterRowX (x hGap : ℚ) (l : List State) : ℚ :=
  l.foldl (fun acc s => acc + stateShapeW s.state_type + hGap) x

/-- Disconnected process operators placed left-to-right after the states. -/
def rowPlacePOs (x y hGap : ℚ) : List ProcessOperator → List DiagramElement
  | [] => []
  | p :: rest =>
    { id := p.id, type := .processOperator, label := p.label, x := x, y := y,
      width := PROCESS_W, height := PROCESS_H, stateType := none, line_number := none } ::
      rowPlacePOs (x + PROCESS_W + hGap) y hGap rest

/-- Indexed traversal, modelling a `for (i; i < l.length; i++)` loop. -/
def withIdx (l : List α) : List (ℕ × α) := (List.range l.length).zip l

/-- Group a list of keyed items by key, keys in first-occurrence order
(JavaScript `Map<number, T[]>` accumulation). -/
def groupByKey [DecidableEq κ] (l : List (α × κ)) : List (κ × List α) :=
  (firstDedup (l.map (·.2))).map fun k => (k, (l.filter fun p => p.2 = k).map (·.1))

/- ---------- Phase 7: connections (layout.ts, end of layoutSingleSystem) ---------- -/

/-- One `DiagramConnection` per flow, augmented with the routing-side hints
for boundary-top sources, boundary-bottom targets and feedback states. -/
def flowConnections (flows : List Flow)
    (boundaryTopIds boundaryBottomIds backwardIds : List String) : List DiagramConnection :=
  flows.map fun f =>
    let base : DiagramConnection :=
      { id := f.id, sourceId := f.source_ref, targetId := f.target_ref,
        flowType := some f.flow_type, isUsage := false, line_number := f.line_number,
        sourceSide := none, targetSide := none }
    let c1 := if f.source_ref ∈ boundaryTopIds then { base with sourceSide := some .bottom } else base
    let c2 := if f.target_ref ∈ boundaryBottomIds then { c1 with targetSide := some .top } else c1
    if f.target_ref ∈ backwardIds then
      { c2 with sourceSide := some .left, targetSide := some .bottom }
    else if f.source_ref ∈ backwardIds then
      { c2 with sourceSide := some .top, targetSide := some .left }
    else c2

/-- One `DiagramConnection` per usage. -/
def usageConnections (usages : List Usage) : List DiagramConnection :=
  usages.map fun u =>
    { id := u.id, sourceId := u.process_operator_ref, targetId := u.technical_resource_ref,
      flowType := none, isUsage := true, line_number := u.line_number,
      sourceSide := none, targetSide := none }

/- ---------- layoutSingleSystem ---------- -/

structure SLBox where
  x : ℚ
  y : ℚ
  width : ℚ
  height : ℚ
deriving DecidableEq, Repr, Inhabited

structure SingleSystemResult where
  elements : List DiagramElement
  connections : List DiagramConnection
  systemLimitBounds : Option SLBox
deriving DecidableEq, Repr, Inhabited

/-- Results of phases 0–3 of `layoutSingleSystem`. -/
structure SysCore where
  g : ConnectivityGraph
  poOrder : List String
  poRankL : List (String × Nat)
  maxRank : ℤ
  affs : List (String × StateAffinity)

def sysCore (states : List State) (pos : List ProcessOperator)
    (flows : List Flow) (usages : List Usage) : SysCore :=
  let g := buildConnectivityGraph states pos flows usages
  let topo := topologicalSortPOs pos states g
  let poRank : String → Option Nat := fun id => topo.2.lookup id
  let maxRank : ℤ := if topo.1 ≠ [] then (listMaxNat (topo.2.map (·.2)) : ℤ) else -1
  { g := g, poOrder := topo.1, poRankL := topo.2, maxRank := maxRank
    affs := assignStateAffinities states g poRank maxRank }

/-- Affinity lookup (`affinities.get(id)`; a `Map.set` keeps the last write,
hence the `reverse`). -/
def affOf (c : SysCore) (sid : String) : StateAffinity :=
  (c.affs.reverse.lookup sid).getD default

def catOf (c : SysCore) (s : State) : StateCategory := (affOf c s.id).category

/-- The category groupings built by the switch over states. -/
structure SysGroups where
  boundaryTopS : List State
  boundaryBottomS : List State
  boundaryLeftG : List (Nat × List State)
  boundaryRightG : List (Nat × List State)
  internalStatesL : List State
  disconnectedStatesL : List State
  internalsByGap : List ((Nat × Nat) × List State)
  backwardInternals : List State

def sysGroups (c : SysCore) (states : List State) : SysGroups :=
  let internalStatesL := states.filter fun s => catOf c s = .internal
  let withGaps := internalStatesL.map fun s =>
    let aff := affOf c s.id
    let sRank := aff.sourceRank.getD aff.affiliatedRank
    (s, (sRank, aff.targetRank.getD (sRank + 1)))
  { boundaryTopS := states.filter fun s => catOf c s = .boundaryTop
    boundaryBottomS := states.filter fun s => catOf c s = .boundaryBottom
    boundaryLeftG := groupByKey ((states.filter fun s => catOf c s = .boundaryLeft).map
      fun s => (s, (affOf c s.id).affiliatedRank))
    boundaryRightG := groupByKey ((states.filter fun s => catOf c s = .boundaryRight).map
      fun s => (s, (affOf c s.id).affiliatedRank))
    internalStatesL := internalStatesL
    disconnectedStatesL := states.filter fun s => catOf c s = .disconnected
    internalsByGap := groupByKey (withGaps.filter fun p => p.2.1 < p.2.2)
    backwardInternals := (withGaps.filter fun p => ¬ p.2.1 < p.2.2).map (·.1) }

/-- Phase 4a: Y position of each PO row (rank ↦ y). -/
def poRowYOf (gr : SysGroups) (maxRank : ℤ) (cfg : LayoutConfig) (startY : ℚ) :
    List (Nat × ℚ) :=
  let hasIntermediatesBelow := gr.internalsByGap.map (·.1.1)
  let topBoundaryHeight : ℚ := if gr.boundaryTopS ≠ [] then STATE_H + cfg.vGap else 0
  let ranks : List Nat := if maxRank < 0 then [] else List.range (maxRank.toNat + 1)
  (ranks.foldl (fun (acc : List (Nat × ℚ) × ℚ) rank =>
      let leftCount := ((gr.boundaryLeftG.lookup rank).getD []).length
      let rightCount := ((gr.boundaryRightG.lookup rank).getD []).length
      let maxSideCount := max leftCount rightCount
      let sideHeight : ℚ :=
        if 0 < maxSideCount then (maxSideCount : ℚ) * (STATE_H + cfg.hGap) - cfg.hGap else 0
      let rowHeight := max PROCESS_H sideHeight
      let afterRow := acc.2 + rowHeight
      let nextY :=
        if rank ∈ hasIntermediatesBelow then afterRow + INTERNAL_V_GAP + STATE_H + INTERNAL_V_GAP
        else if (rank : ℤ) < maxRank then afterRow + cfg.vGap
        else afterRow
      (acc.1 ++ [(rank, acc.2 + (rowHeight - PROCESS_H) / 2)], nextY))
    ([], startY + topBoundaryHeight)).1

/-- Phase 4b: one element per ordered PO (`processOperators.find` cannot
miss since the order only contains operator ids). -/
def poElemsOf (c : SysCore) (pos : List ProcessOperator) (coreLeftX : ℚ)
    (rowY : Nat → ℚ) : List DiagramElement :=
  c.poOrder.filterMap fun poId =>
    (pos.find? fun p => p.id == poId).map fun po =>
      { id := po.id, type := .processOperator, label := po.label,
        x := coreLeftX, y := rowY ((c.poRankL.lookup poId).getD 0),
        width := PROCESS_W, height := PROCESS_H,
        stateType := none, line_number := po.line_number }

/-- Phase 4c: forward-edge internal states centred in the gap between rows. -/
def forwardElemsOf (gr : SysGroups) (poRowYL : List (Nat × ℚ)) (startY poCenterX : ℚ)
    (cfg : LayoutConfig) : List DiagramElement :=
  gr.internalsByGap.flatMap fun entry =>
    let sRank := entry.1.1
    let tRank := entry.1.2
    let sourcePoY := (poRowYL.lookup sRank).getD startY
    let nextRowY := (poRowYL.lookup (min (sRank + 1) tRank)).getD ((poRowYL.lookup tRank).getD startY)
    let midY := (sourcePoY + PROCESS_H + nextRowY) / 2 - STATE_H / 2
    let xs := distributeCentered entry.2.length STATE_MAX_W cfg.hGap poCenterX
    (entry.2.zip xs).map fun p =>
      let w := stateShapeW p.1.state_type
      { id := p.1.id, type := .state, label := p.1.label,
        x := p.2 + (STATE_MAX_W - w) / 2, y := midY,
        width := w, height := stateShapeH p.1.state_type,
        stateType := some p.1.state_type, line_number := p.1.line_number }

/-- Phase 4d: backward-edge (feedback) internal states in a lane left of the POs. -/
def backwardElemsOf (c : SysCore) (gr : SysGroups) (rowY : Nat → ℚ) (feedbackX : ℚ) :
    List DiagramElement :=
  gr.backwardInternals.map fun s =>
    let aff := affOf c s.id
    let sRankVal := aff.sourceRank.getD 0
    let tRankVal := aff.targetRank.getD 0
    let upperY := rowY (min sRankVal tRankVal)
    let lowerY := rowY (max sRankVal tRankVal)
    let midY := (upperY + PROCESS_H + lowerY) / 2 - STATE_H / 2
    let w := stateShapeW s.state_type
    { id := s.id, type := .state, label := s.label,
      x := feedbackX + (STATE_MAX_W - w) / 2, y := midY,
      width := w, height := stateShapeH s.state_type,
      stateType := some s.state_type, line_number := s.line_number }

/-- Phase 5: bounding box of the core elements including state label extents
(`Infinity` start values modelled by `none`). -/
def coreBBox (coreElements : List DiagramElement) : ℚ × ℚ × ℚ × ℚ :=
  let folded := coreElements.foldl
    (fun (acc : Option ℚ × Option ℚ × Option ℚ × Option ℚ) e =>
      let acc1 :=
        if e.type = .state then
          let longestLine := max e.id.length e.label.length
          let labelWidth := (longestLine : ℚ) * stateLabelCharW
          let labelAnchorX := e.x + e.width / 2 - 6
          (optMin (optMin acc.1 (labelAnchorX - labelWidth)) e.x,
            optMin acc.2.1 (e.y - STATE_LABEL_ABOVE))
        else (optMin acc.1 e.x, optMin acc.2.1 e.y)
      (acc1.1, acc1.2, optMax acc.2.2.1 (e.x + e.width), optMax acc.2.2.2 (e.y + e.height)))
    (none, none, none, none)
  (folded.1.getD 0, folded.2.1.getD 0, folded.2.2.1.getD 0, folded.2.2.2.getD 0)

/-- Phase 5: the system-limit rectangle. -/
def systemLimitOf (gr : SysGroups) (coreElements : List DiagramElement)
    (cfg : LayoutConfig) (coreLeftX startY : ℚ) : Option SLBox :=
  if coreElements ≠ [] ∨ gr.boundaryTopS ≠ [] ∨ gr.boundaryBottomS ≠ [] then
    let base : ℚ × ℚ × ℚ × ℚ :=
      if coreElements ≠ [] then coreBBox coreElements
      else (coreLeftX, startY, coreLeftX + PROCESS_W, startY + PROCESS_H)
    let maxLeftCount := listMaxNat (0 :: gr.boundaryLeftG.map (·.2.length))
    let maxRightCount := listMaxNat (0 :: gr.boundaryRightG.map (·.2.length))
    let slMinX := if 0 < maxLeftCount then base.1 - (STATE_MAX_W / 2 + cfg.hGap) else base.1
    let slMaxX := if 0 < maxRightCount then base.2.2.1 + (STATE_MAX_W / 2 + cfg.hGap) else base.2.2.1
    let topWidth : ℚ :=
      if gr.boundaryTopS ≠ [] then
        (gr.boundaryTopS.length : ℚ) * (STATE_MAX_W + cfg.hGap) - cfg.hGap
      else 0
    let bottomWidth : ℚ :=
      if gr.boundaryBottomS ≠ [] then
        (gr.boundaryBottomS.length : ℚ) * (STATE_MAX_W + cfg.hGap) - cfg.hGap
      else 0
    let maxBoundaryWidth := max topWidth bottomWidth
    let widened :=
      if slMaxX - slMinX < maxBoundaryWidth then
        let extra := (maxBoundaryWidth - (slMaxX - slMinX)) / 2
        (slMinX - extra, slMaxX + extra)
      else (slMinX, slMaxX)
    let slMinY := if gr.boundaryTopS ≠ [] then base.2.1 - BOUNDARY_EXTRA_V else base.2.1
    let slMaxY := if gr.boundaryBottomS ≠ [] then base.2.2.2 + BOUNDARY_EXTRA_V else base.2.2.2
    some { x := widened.1 - cfg.systemLimitPadding, y := slMinY - cfg.systemLimitPadding,
           width := widened.2 - widened.1 + cfg.systemLimitPadding * 2,
           height := slMaxY - slMinY + cfg.systemLimitPadding * 2 }
  else none

/-- Boundary states straddling the system-limit edges (only placed when a
system limit exists). -/
def boundaryElemsOf (gr : SysGroups) (sl? : Option SLBox) (rowY : Nat → ℚ)
    (cfg : LayoutConfig) : List DiagramElement :=
  match sl? with
  | none => []
  | some sl =>
    let slCenterX := sl.x + sl.width / 2
    let topElems := (gr.boundaryTopS.zip
        (distributeCentered gr.boundaryTopS.length STATE_MAX_W cfg.hGap slCenterX)).map fun p =>
      { id := p.1.id, type := .state, label := p.1.label,
        x := p.2, y := sl.y - STATE_H / 2,
        width := stateShapeW p.1.state_type, height := stateShapeH p.1.state_type,
        stateType := some p.1.state_type, line_number := p.1.line_number }
    let botElems := (gr.boundaryBottomS.zip
        (distributeCentered gr.boundaryBottomS.length STATE_MAX_W cfg.hGap slCenterX)).map fun p =>
      { id := p.1.id, type := .state, label := p.1.label,
        x := p.2, y := sl.y + sl.height - STATE_H / 2,
        width := stateShapeW p.1.state_type, height := stateShapeH p.1.state_type,
        stateType := some p.1.state_type, line_number := p.1.line_number }
    let leftElems := gr.boundaryLeftG.flatMap fun entry =>
      let rowCenterY := rowY entry.1 + PROCESS_H / 2
      (entry.2.zip (distributeCentered entry.2.length STATE_H cfg.hGap rowCenterY)).map fun p =>
        { id := p.1.id, type := .state, label := p.1.label,
          x := sl.x - STATE_MAX_W / 2, y := p.2,
          width := stateShapeW p.1.state_type, height := stateShapeH p.1.state_type,
          stateType := some p.1.state_type, line_number := p.1.line_number }
    let rightElems := gr.boundaryRightG.flatMap fun entry =>
      let rowCenterY := rowY entry.1 + PROCESS_H / 2
      (entry.2.zip (distributeCentered entry.2.length STATE_H cfg.hGap rowCenterY)).map fun p =>
        { id := p.1.id, type := .state, label := p.1.label,
          x := sl.x + sl.width - STATE_MAX_W / 2, y := p.2,
          width := stateShapeW p.1.state_type, height := stateShapeH p.1.state_type,
          stateType := some p.1.state_type, line_number := p.1.line_number }
    topElems ++ botElems ++ leftElems ++ rightElems

/-- Technical resources placed right of the system limit, aligned with the
using PO when one exists. -/
def trElemsOf (c : SysCore) (trs : List TechnicalResource)
    (poElems : List DiagramElement) (trStartX : ℚ) (rowY : Nat → ℚ)
    (cfg : LayoutConfig) : List DiagramElement :=
  (withIdx trs).map fun p =>
    let tr := p.2
    let poEl : Option DiagramElement :=
      match c.g.trToPo tr.id with
      | some pid => if pid = "" then none else poElems.find? fun (e : DiagramElement) => e.id == pid
      | none => none
    let trY : ℚ :=
      match poEl with
      | some pe => pe.y + (pe.height - RESOURCE_H) / 2
      | none => rowY 0 + (p.1 : ℚ) * (RESOURCE_H + cfg.hGap)
    { id := tr.id, type := .technicalResource, label := tr.label,
      x := trStartX, y := trY, width := RESOURCE_W, height := RESOURCE_H,
      stateType := none, line_number := tr.line_number }

/-- Greatest `y + height` over the elements placed so far (`startY` when the
list is empty). -/
def maxElemBottom (startY : ℚ) : List DiagramElement → ℚ
  | [] => startY
  | e :: es => es.foldl (fun acc x => max acc (x.y + x.height)) (e.y + e.height)

def layoutSingleSystem (states : List State) (pos : List ProcessOperator)
    (trs : List TechnicalResource) (flows : List Flow) (usages : List Usage)
    (cfg : LayoutConfig) (offsetX offsetY : ℚ) : SingleSystemResult :=
  if states.isEmpty && pos.isEmpty then ⟨[], [], none⟩
  else
    let c := sysCore states pos flows usages
    let gr := sysGroups c states
    let startX := offsetX + cfg.padding
    let startY := offsetY + cfg.padding
    let poRowYL := poRowYOf gr c.maxRank cfg startY
    let rowY : Nat → ℚ := fun r => (poRowYL.lookup r).getD startY
    let leftSpace : ℚ :=
      (if gr.boundaryLeftG ≠ [] then STATE_MAX_W + cfg.hGap else 0) +
        (if gr.backwardInternals ≠ [] then STATE_MAX_W + cfg.hGap else 0)
    let coreLeftX := startX + leftSpace
    let poElems := poElemsOf c pos coreLeftX rowY
    let disconnectedPOs := pos.filter fun p => p.id ∉ c.g.allFlowRefs
    let forwardElems := forwardElemsOf gr poRowYL startY (coreLeftX + PROCESS_W / 2) cfg
    let backwardElems := backwardElemsOf c gr rowY (coreLeftX - STATE_MAX_W - cfg.hGap)
    let coreElements := (poElems ++ forwardElems ++ backwardElems).filter
      fun (e : DiagramElement) =>
        e.type = .processOperator ∨ (e.type = .state ∧ gr.internalStatesL.any fun s => s.id = e.id)
    let systemLimitBounds := systemLimitOf gr coreElements cfg coreLeftX startY
    let boundaryElems := boundaryElemsOf gr systemLimitBounds rowY cfg
    let trStartX : ℚ :=
      match systemLimitBounds with
      | some sl => sl.x + sl.width + cfg.resourceOffsetX
      | none => coreLeftX + PROCESS_W + cfg.resourceOffsetX * 2
    let trElems := trElemsOf c trs poElems trStartX rowY cfg
    let elemsBefore := poElems ++ forwardElems ++ backwardElems ++ boundaryElems ++ trElems
    let disconnectedStartY := maxElemBottom startY elemsBefore + cfg.vGap
    let disconnectedElems :=
      rowPlaceStates startX disconnectedStartY cfg.hGap gr.disconnectedStatesL ++
        rowPlacePOs (afterRowX startX cfg.hGap gr.disconnectedStatesL) disconnectedStartY cfg.hGap
          disconnectedPOs
    { elements := elemsBefore ++ disconnectedElems
      connections :=
        flowConnections flows (gr.boundaryTopS.map (·.id)) (gr.boundaryBottomS.map (·.id))
          (gr.backwardInternals.map (·.id)) ++ usageConnections usages
      systemLimitBounds := systemLimitBounds }

/- ---------- layoutProcessModel ---------- -/

/-- Remove duplicate elements by id, keeping the first occurrence. -/
def dedupElementsAux (seen : List String) : List DiagramElement → List DiagramElement
  | [] => []
  | e :: es => if e.id ∈ seen then dedupElementsAux seen es else e :: dedupElementsAux (e.id :: seen) es

def deduplicateElements (elements : List DiagramElement) : List DiagramElement :=
  dedupElementsAux [] elements

/-- `Math.max` over `e.x + e.width` of a non-empty element list. -/
def maxElemRight : List DiagramElement → ℚ
  | [] => 0
  | e :: es => es.foldl (fun acc x => max acc (x.x + x.width)) (e.x + e.width)

/-- The per-system entity filters of the multi-system branch
(`model.states.filter(s => s.system_id === sl.id)` etc.). -/
def sysStatesOf (model : ProcessModel) (sl : SystemLimit) : List State :=
  model.states.filter fun s => s.system_id = some sl.id

def sysPOsOf (model : ProcessModel) (sl : SystemLimit) : List ProcessOperator :=
  model.process_operators.filter fun p => p.system_id = some sl.id

def sysTRsOf (model : ProcessModel) (sl : SystemLimit) : List TechnicalResource :=
  model.technical_resources.filter fun r => r.system_id = some sl.id

def sysFlowsOf (model : ProcessModel) (sl : SystemLimit) : List Flow :=
  model.flows.filter fun f => f.system_id = some sl.id

def sysUsagesOf (model : ProcessModel) (sl : SystemLimit) : List Usage :=
  model.usages.filter fun u => u.system_id = some sl.id

/-- One iteration of the multi-system loop: lay out the entities belonging
to `sl` (skipping sub-systems with no states, operators or resources) and
advance the running x offset. -/
def multiSystemStep (model : ProcessModel) (config : LayoutConfig)
    (acc : List DiagramElement × List DiagramConnection × List SystemLimitBounds × ℚ)
    (sl : SystemLimit) :
    List DiagramElement × List DiagramConnection × List SystemLimitBounds × ℚ :=
  if (sysStatesOf model sl).isEmpty && (sysPOsOf model sl).isEmpty &&
      (sysTRsOf model sl).isEmpty then acc
  else
    let systemGap := config.hGap * 3
    let result := layoutSingleSystem (sysStatesOf model sl) (sysPOsOf model sl)
      (sysTRsOf model sl) (sysFlowsOf model sl) (sysUsagesOf model sl) config acc.2.2.2 0
    let nextOffset : ℚ :=
      match result.systemLimitBounds with
      | some b => b.x + b.width + systemGap
      | none =>
        if result.elements ≠ [] then maxElemRight result.elements + systemGap
        else acc.2.2.2
    let newLimits :=
      match result.systemLimitBounds with
      | some b =>
        acc.2.2.1 ++ [{ id := sl.id, label := sl.label,
                        x := b.x, y := b.y, width := b.width, height := b.height }]
      | none => acc.2.2.1
    (acc.1 ++ result.elements, acc.2.1 ++ result.connections, newLimits, nextOffset)

def layoutProcessModel (model : ProcessModel) (config : LayoutConfig) : DiagramData :=
  if model.system_limits.isEmpty then
    let result := layoutSingleSystem model.states model.process_operators
      model.technical_resources model.flows model.usages config 0 0
    let systemLimits : List SystemLimitBounds :=
      match result.systemLimitBounds with
      | some b =>
        [{ id := "default", label := if model.title ≠ "" then model.title else "Untitled Process",
           x := b.x, y := b.y, width := b.width, height := b.height }]
      | none => []
    { elements := deduplicateElements result.elements
      connections := result.connections
      systemLimits := systemLimits }
  else
    let final := model.system_limits.foldl (multiSystemStep model config) ([], [], [], 0)
    { elements := deduplicateElements final.1
      connections := final.2.1
      systemLimits := final.2.2.1 }

/- ---------- Connection router (routing.ts) ---------- -/

def centerOf (el : DiagramElement) : Point :=
  ⟨el.x + el.width / 2, el.y + el.height / 2⟩

/-- `buildLookup` + `Map.get`: for duplicate ids the last element wins. -/
def lookupEl (elements : List DiagramElement) (id : String) : Option DiagramElement :=
  elements.reverse.find? fun e => e.id == id

/-- Which side of `el` a connection towards `toward` should exit from. -/
def determineSide (el toward : DiagramElement) : Side :=
  let fc := centerOf el
  let tc := centerOf toward
  let dx := tc.x - fc.x
  let dy := tc.y - fc.y
  if |dy| ≥ |dx| then (if 0 ≤ dy then .bottom else .top)
  else (if 0 ≤ dx then .right else .left)

/-- Port position on a side of an element; `index` is 0-based among `count`
ports. -/
def portPosition (el : DiagramElement) (side : Side) (index count : Nat) : Point :=
  match side with
  | .top => ⟨el.x + el.width / ((count : ℚ) + 1) * ((index : ℚ) + 1), el.y⟩
  | .bottom => ⟨el.x + el.width / ((count : ℚ) + 1) * ((index : ℚ) + 1), el.y + el.height⟩
  | .left => ⟨el.x, el.y + el.height / ((count : ℚ) + 1) * ((index : ℚ) + 1)⟩
  | .right => ⟨el.x + el.width, el.y + el.height / ((count : ℚ) + 1) * ((index : ℚ) + 1)⟩

/-- Orthogonal waypoints between two ports: straight or Z for same-axis side
pairs, a single-bend L for mixed-axis pairs. -/
def orthogonalWaypoints (source target : Point) (sourceSide targetSide : Side) : List Point :=
  if (sourceSide = .bottom ∨ sourceSide = .top) ∧ (targetSide = .top ∨ targetSide = .bottom) then
    if source.x = target.x then [source, target]
    else
      let midY := (source.y + target.y) / 2
      [source, ⟨source.x, midY⟩, ⟨target.x, midY⟩, target]
  else if (sourceSide = .left ∨ sourceSide = .right) ∧
      (targetSide = .left ∨ targetSide = .right) then
    if source.y = target.y then [source, target]
    else
      let midX := (source.x + target.x) / 2
      [source, ⟨midX, source.y⟩, ⟨midX, target.y⟩, target]
  else if sourceSide = .bottom ∨ sourceSide = .top then
    [source, ⟨source.x, target.y⟩, target]
  else
    [source, ⟨target.x, source.y⟩, target]

structure ConnectionMeta where
  conn : DiagramConnection
  source : DiagramElement
  target : DiagramElement
  sourceSide : Side
  targetSide : Side
  isDirect : Bool
deriving DecidableEq, Repr, Inhabited

/-- Step 1: resolve endpoints (dropping connections with dangling ids) and
determine initial sides. -/
def initialMetas (elements : List DiagramElement) (connections : List DiagramConnection) :
    List ConnectionMeta :=
  connections.filterMap fun conn =>
    match lookupEl elements conn.sourceId, lookupEl elements conn.targetId with
    | some source, some target =>
      some { conn := conn, source := source, target := target
             sourceSide := conn.sourceSide.getD (determineSide source target)
             targetSide := conn.targetSide.getD (determineSide target source)
             isDirect := decide (conn.flowType = some .alternativeFlow) }
    | _, _ => none

/-- Step 1b: alternative/parallel flows sharing a source (resp. target)
element are forced onto the side of the first such flow.  The imperative
per-group assignment in the source equals this per-meta form because the
first member of each group keeps its own original side. -/
def alignFlowSides (metas : List ConnectionMeta) : List ConnectionMeta :=
  metas.map fun m =>
    if m.conn.flowType = some .alternativeFlow ∨ m.conn.flowType = some .parallelFlow then
      { m with
        sourceSide := ((metas.find? fun n =>
            decide (n.conn.flowType = m.conn.flowType ∧ n.source.id = m.source.id)).map
          (·.sourceSide)).getD m.sourceSide
        targetSide := ((metas.find? fun n =>
            decide (n.conn.flowType = m.conn.flowType ∧ n.target.id = m.target.id)).map
          (·.targetSide)).getD m.targetSide }
    else m

def alignedMetas (elements : List DiagramElement) (connections : List DiagramConnection) :
    List ConnectionMeta :=
  alignFlowSides (initialMetas elements connections)

/- ---------- Step 2: port groups keyed by (element id, side) ---------- -/

structure PortEntry where
  metaIndex : Nat
  isSource : Bool
deriving DecidableEq, Repr, Inhabited

def metaAt (metas : List ConnectionMeta) (i : Nat) : ConnectionMeta := metas.getD i default

def srcKey (m : ConnectionMeta) : String × Side := (m.source.id, m.sourceSide)

def tgtKey (m : ConnectionMeta) : String × Side := (m.target.id, m.targetSide)

/-- Entries of the port group `key`, in insertion order (per connection:
source entry then target entry). -/
def entriesForAux (key : String × Side) : List ConnectionMeta → Nat → List PortEntry
  | [], _ => []
  | m :: rest, i =>
    ((if srcKey m = key then [⟨i, true⟩] else []) ++
        (if tgtKey m = key then [⟨i, false⟩] else [])) ++
      entriesForAux key rest (i + 1)

def entriesFor (metas : List ConnectionMeta) (key : String × Side) : List PortEntry :=
  entriesForAux key metas 0

/-- Group keys in first-occurrence order (`Map` insertion order). -/
def groupKeys (metas : List ConnectionMeta) : List (String × Side) :=
  firstDedup (metas.flatMap fun m => [srcKey m, tgtKey m])

def entryElem (metas : List ConnectionMeta) (e : PortEntry) : DiagramElement :=
  if e.isSource then (metaAt metas e.metaIndex).source else (metaAt metas e.metaIndex).target

def entrySide (metas : List ConnectionMeta) (e : PortEntry) : Side :=
  if e.isSource then (metaAt metas e.metaIndex).sourceSide else (metaAt metas e.metaIndex).targetSide

/-- The key of the group an entry belongs to. -/
def entryKey (metas : List ConnectionMeta) (e : PortEntry) : String × Side :=
  if e.isSource then srcKey (metaAt metas e.metaIndex) else tgtKey (metaAt metas e.metaIndex)

def entryFlowType (metas : List ConnectionMeta) (e : PortEntry) : Option FlowType :=
  (metaAt metas e.metaIndex).conn.flowType

/- ---------- Step 3: anchor slots and port assignment ---------- -/

/-- Meta indices of the alternative-flow entries of a group (they share one
anchor slot). -/
def altIndices (metas : List ConnectionMeta) (entries : List PortEntry) : List Nat :=
  entries.filterMap fun e =>
    if entryFlowType metas e = some .alternativeFlow then some e.metaIndex else none

/-- Meta indices of the parallel-flow entries of a group. -/
def parIndices (metas : List ConnectionMeta) (entries : List PortEntry) : List Nat :=
  entries.filterMap fun e =>
    if entryFlowType metas e = some .parallelFlow then some e.metaIndex else none

/-- One singleton slot per regular flow / usage entry, in entry order. -/
def regularSlots (metas : List ConnectionMeta) (entries : List PortEntry) : List (List Nat) :=
  entries.filterMap fun e =>
    if entryFlowType metas e = some .alternativeFlow ∨ entryFlowType metas e = some .parallelFlow
    then none else some [e.metaIndex]

/-- Anchor slots of one group: one slot per regular flow/usage entry (in
entry order), then one shared slot for all alternative flows, then one for
all parallel flows. -/
def buildSlots (metas : List ConnectionMeta) (entries : List PortEntry) : List (List Nat) :=
  regularSlots metas entries ++
    (if altIndices metas entries ≠ [] then [altIndices metas entries] else []) ++
    (if parIndices metas entries ≠ [] then [parIndices metas entries] else [])

/-- Average coordinate of the elements at the other end of a slot's
connections (used to order ports along a side). -/
def avgConnectedPos (metas : List ConnectionMeta) (entries : List PortEntry)
    (slot : List Nat) (useY : Bool) : ℚ :=
  let vals := slot.filterMap fun mi =>
    (entries.find? fun e => e.metaIndex == mi).map fun e =>
      let m := metaAt metas mi
      let connected := if e.isSource then m.target else m.source
      if useY then (centerOf connected).y else (centerOf connected).x
  if vals.length = 0 then 0 else vals.sum / (vals.length : ℚ)

/-- Slot order relation: ascending average position of the connected
elements. -/
def slotLeP (metas : List ConnectionMeta) (entries : List PortEntry) (useY : Bool)
    (a b : List Nat) : Prop :=
  avgConnectedPos metas entries a useY ≤ avgConnectedPos metas entries b useY

instance (metas : List ConnectionMeta) (entries : List PortEntry) (useY : Bool) :
    DecidableRel (slotLeP metas entries useY) := fun _ _ => by
  unfold slotLeP; infer_instance

instance (metas : List ConnectionMeta) (entries : List PortEntry) (useY : Bool) :
    IsTotal (List Nat) (slotLeP metas entries useY) :=
  ⟨fun _ _ => le_total _ _⟩

instance (metas : List ConnectionMeta) (entries : List PortEntry) (useY : Bool) :
    IsTrans (List Nat) (slotLeP metas entries useY) :=
  ⟨fun _ _ _ => le_trans⟩

def sortedSlots (metas : List ConnectionMeta) (entries : List PortEntry) (useY : Bool) :
    List (List Nat) :=
  (buildSlots metas entries).insertionSort (slotLeP metas entries useY)

/-- The sorted anchor slots of the group with the given key. -/
def groupSlots (metas : List ConnectionMeta) (key : String × Side) : List (List Nat) :=
  sortedSlots metas (entriesFor metas key) (decide (key.2 = Side.left ∨ key.2 = Side.right))

structure PortWrite where
  isSource : Bool
  metaIndex : Nat
  point : Point
deriving DecidableEq, Repr, Inhabited

/-- Assignments produced by one group: slot `k` of `n` writes the port
`portPosition el side k n` to every member; the written role is that of the
*first* entry with the member's meta index. -/
def slotWrites (entries : List PortEntry) (el : DiagramElement) (side : Side)
    (n : Nat) : List (List Nat) → Nat → List PortWrite
  | [], _ => []
  | slot :: rest, k =>
    slot.filterMap (fun mi =>
        (entries.find? fun e => e.metaIndex == mi).map fun e =>
          ⟨e.isSource, mi, portPosition el side k n⟩) ++
      slotWrites entries el side n rest (k + 1)

def groupWrites (metas : List ConnectionMeta) (key : String × Side) : List PortWrite :=
  let entries := entriesFor metas key
  match entries with
  | [] => []
  | e0 :: _ =>
    let el := entryElem metas e0
    let useY := key.2 = Side.left ∨ key.2 = Side.right
    let slots := sortedSlots metas entries useY
    slotWrites entries el key.2 slots.length slots 0

def allWrites (metas : List ConnectionMeta) : List PortWrite :=
  (groupKeys metas).flatMap (groupWrites metas)

/-- Final source port of connection `i` (the last write wins, matching
mutation order; in fact each slot is written exactly once). -/
def sourcePortOf (writes : List PortWrite) (i : Nat) : Option Point :=
  ((writes.filter fun w => w.isSource && w.metaIndex == i).map (·.point)).getLast?

def targetPortOf (writes : List PortWrite) (i : Nat) : Option Point :=
  ((writes.filter fun w => !w.isSource && w.metaIndex == i).map (·.point)).getLast?

/-- The port finally assigned to a connection endpoint (role `true` =
source). -/
def portOf (writes : List PortWrite) (e : PortEntry) : Option Point :=
  if e.isSource then sourcePortOf writes e.metaIndex else targetPortOf writes e.metaIndex

/- ---------- Step 4: waypoints ---------- -/

def computeRouting (elements : List DiagramElement) (connections : List DiagramConnection) :
    List RoutedConnection :=
  let metas := alignedMetas elements connections
  let writes := allWrites metas
  (withIdx metas).filterMap fun p =>
    match sourcePortOf writes p.1, targetPortOf writes p.1 with
    | some sp, some tp =>
      some { connection := p.2.conn
             points :=
               if p.2.isDirect then [sp, tp]
               else orthogonalWaypoints sp tp p.2.sourceSide p.2.targetSide
             isDirect := p.2.isDirect }
    | _, _ => none

/-- Example diagram for the port-sharing example: one operator with three
alternative flows, one regular flow and one usage leaving its bottom side. -/
def portShareEls : List DiagramElement :=
  [⟨"A", .processOperator, "A", 0, 0, 150, 80, none, none⟩,
   ⟨"B", .state, "B", 200, 200, 50, 50, some .product, none⟩,
   ⟨"C", .state, "C", 300, 200, 50, 50, some .product, none⟩,
   ⟨"D", .state, "D", 400, 200, 50, 50, some .product, none⟩,
   ⟨"E", .state, "E", 500, 200, 50, 50, some .product, none⟩,
   ⟨"F", .state, "F", 600, 200, 50, 50, some .product, none⟩]

def portShareConns : List DiagramConnection :=
  [⟨"a1", "A", "B", some .alternativeFlow, false, none, some .bottom, some .top⟩,
   ⟨"a2", "A", "C", some .alternativeFlow, false, none, some .bottom, some .top⟩,
   ⟨"a3", "A", "D", some .alternativeFlow, false, none, some .bottom, some .top⟩,
   ⟨"f1", "A", "E", some .flow, false, none, some .bottom, some .top⟩,
   ⟨"u1", "A", "F", none, true, none, some .bottom, some .top⟩]

/-! ### Generic list lemmas -/

theorem mem_firstDedupAux [DecidableEq α] (seen : List α) (l : List α) (a : α) :
    a ∈ firstDedupAux seen l ↔ a ∈ l ∧ a ∉ seen := by
  induction l generalizing seen with
  | nil => simp [firstDedupAux]
  | cons b t ih =>
    by_cases hb : b ∈ seen
    · simp only [firstDedupAux, if_pos hb, ih, List.mem_cons]
      constructor
      · rintro ⟨ha, hs⟩
        exact ⟨Or.inr ha, hs⟩
      · rintro ⟨ha | ha, hs⟩
        · subst ha; exact absurd hb hs
        · exact ⟨ha, hs⟩
    · simp only [firstDedupAux, if_neg hb, List.mem_cons, ih]
      by_cases hab : a = b
      · subst hab; simp [hb]
      · simp [hab]

theorem nodup_firstDedupAux [DecidableEq α] (seen : List α) (l : List α) :
    (firstDedupAux seen l).Nodup := by
  induction l generalizing seen with
  | nil => simp [firstDedupAux]
  | cons b t ih =>
    by_cases hb : b ∈ seen
    · simpa [firstDedupAux, hb] using ih seen
    · simp only [firstDedupAux, if_neg hb, List.nodup_cons]
      refine ⟨?_, ih (b :: seen)⟩
      rw [mem_firstDedupAux]
      rintro ⟨-, h⟩
      exact h (List.mem_cons_self b seen)

theorem length_firstDedupAux_le [DecidableEq α] (seen : List α) (l : List α) :
    (firstDedupAux seen l).length ≤ l.length := by
  induction l generalizing seen with
  | nil => simp [firstDedupAux]
  | cons b t ih =>
    by_cases hb : b ∈ seen
    · simp only [firstDedupAux, if_pos hb, List.length_cons]
      exact le_trans (ih seen) (Nat.le_succ _)
    · simpa [firstDedupAux, hb] using ih (b :: seen)

theorem mem_firstDedup [DecidableEq α] (l : List α) (a : α) :
    a ∈ firstDedup l ↔ a ∈ l := by
  simp [firstDedup, mem_firstDedupAux]

theorem nodup_firstDedup [DecidableEq α] (l : List α) : (firstDedup l).Nodup :=
  nodup_firstDedupAux [] l

theorem length_firstDedup_le [DecidableEq α] (l : List α) :
    (firstDedup l).length ≤ l.length := length_firstDedupAux_le [] l

theorem insertionSort_eq_nil_iff {r : α → α → Prop} [DecidableRel r] (l : List α) :
    l.insertionSort r = [] ↔ l = [] := by
  constructor
  · intro h
    have := (List.perm_insertionSort r l).length_eq
    rw [h] at this
    exact List.length_eq_zero.mp this.symm
  · rintro rfl; rfl

/-! ### Reflexivity of the comparators -/

theorem strLeChars_refl (l : List Char) : strLeChars l l = true := by
  induction l with
  | nil => rfl
  | cons c cs ih => simp [strLeChars, ih]

theorem strLeP_refl (a : String) : strLeP a a := strLeChars_refl a.data

theorem cycleLeP_refl (inDeg : String → Nat) (a : String) : cycleLeP inDeg a a := by
  unfold cycleLeP cycleLe
  simpa using strLeP_refl a

/-! ### Kahn loop lemmas -/

theorem kahnBatch_forced (inDeg : String → Nat) (remaining : List String)
    (h : remaining.filter (fun id => inDeg id = 0) = []) :
    kahnBatch inDeg remaining =
      match remaining.insertionSort (cycleLeP inDeg) with
      | [] => []
      | m :: _ => [m] := by
  unfold kahnBatch
  simp [h]

theorem kahnBatch_ready (inDeg : String → Nat) (remaining : List String)
    (h : remaining.filter (fun id => inDeg id = 0) ≠ []) :
    kahnBatch inDeg remaining =
      (remaining.filter fun id => inDeg id = 0).insertionSort strLeP := by
  unfold kahnBatch
  have : ¬((remaining.filter fun id => inDeg id = 0).insertionSort strLeP).isEmpty = true := by
    rw [List.isEmpty_iff, insertionSort_eq_nil_iff]
    exact h
  simp only [this, if_false, ite_false, Bool.false_eq_true]

theorem kahnBatch_subset (inDeg : String → Nat) (remaining : List String) :
    ∀ x ∈ kahnBatch inDeg remaining, x ∈ remaining := by
  intro x hx
  by_cases h : remaining.filter (fun id => inDeg id = 0) = []
  · rw [kahnBatch_forced inDeg remaining h] at hx
    rcases hs : remaining.insertionSort (cycleLeP inDeg) with _ | ⟨m, rest⟩
    · rw [hs] at hx; cases hx
    · rw [hs] at hx
      rw [List.mem_singleton] at hx
      subst hx
      have : x ∈ remaining.insertionSort (cycleLeP inDeg) := by
        rw [hs]; exact List.mem_cons_self x rest
      exact (List.perm_insertionSort (cycleLeP inDeg) remaining).mem_iff.mp this
  · rw [kahnBatch_ready inDeg remaining h] at hx
    have := (List.perm_insertionSort strLeP _).mem_iff.mp hx
    exact (List.mem_filter.mp this).1

theorem kahnBatch_nodup (inDeg : String → Nat) (remaining : List String)
    (hnd : remaining.Nodup) : (kahnBatch inDeg remaining).Nodup := by
  by_cases h : remaining.filter (fun id => inDeg id = 0) = []
  · rw [kahnBatch_forced inDeg remaining h]
    rcases hs : remaining.insertionSort (cycleLeP inDeg) with _ | ⟨m, rest⟩
    · exact List.nodup_nil
    · simp
  · rw [kahnBatch_ready inDeg remaining h]
    exact ((hnd.filter _).perm (List.perm_insertionSort strLeP _).symm)

theorem kahnBatch_ne_nil (inDeg : String → Nat) (remaining : List String)
    (hne : remaining ≠ []) : kahnBatch inDeg remaining ≠ [] := by
  by_cases h : remaining.filter (fun id => inDeg id = 0) = []
  · rw [kahnBatch_forced inDeg remaining h]
    rcases hs : remaining.insertionSort (cycleLeP inDeg) with _ | ⟨m, rest⟩
    · exact absurd (insertionSort_eq_nil_iff remaining |>.mp hs) hne
    · simp
  · rw [kahnBatch_ready inDeg remaining h]
    rw [Ne, insertionSort_eq_nil_iff]
    exact h

theorem kahnBatch_sorted (inDeg : String → Nat) (remaining : List String) :
    (kahnBatch inDeg remaining).Sorted strLeP := by
  by_cases h : remaining.filter (fun id => inDeg id = 0) = []
  · rw [kahnBatch_forced inDeg remaining h]
    rcases hs : remaining.insertionSort (cycleLeP inDeg) with _ | ⟨m, rest⟩
    · exact List.sorted_nil
    · simp
  · rw [kahnBatch_ready inDeg remaining h]
    exact List.sorted_insertionSort strLeP _

theorem kahnStep_fst (succs : String → List String) :
    ∀ (batch : List String) (r : List String) (d : String → Nat),
      (batch.foldl (kahnStep succs) (r, d)).1 = batch.foldl (fun r x => r.erase x) r := by
  intro batch
  induction batch with
  | nil => intro r d; rfl
  | cons x xs ih => intro r d; exact ih _ _

theorem erase_foldl_perm [DecidableEq α] :
    ∀ (b : List α) (r : List α), b.Nodup → (∀ x ∈ b, x ∈ r) → r.Nodup →
      (b ++ b.foldl (fun r x => r.erase x) r).Perm r := by
  intro b
  induction b with
  | nil => intro r _ _ _; simp
  | cons x xs ih =>
    intro r hnd hsub hrnd
    have hx : x ∈ r := hsub x (List.mem_cons_self x xs)
    have hxs : ∀ y ∈ xs, y ∈ r.erase x := by
      intro y hy
      have hyx : y ≠ x := by
        rintro rfl
        exact (List.nodup_cons.mp hnd).1 hy
      exact (List.mem_erase_of_ne hyx).mpr (hsub y (List.mem_cons_of_mem x hy))
    have hrx : (r.erase x).Nodup := (List.erase_sublist x r).nodup hrnd
    have hmain := ih (r.erase x) (List.nodup_cons.mp hnd).2 hxs hrx
    have hstep : ((x :: xs) ++ xs.foldl (fun r y => r.erase y) (r.erase x)).Perm
        (x :: r.erase x) := by
      simpa using hmain.cons x
    exact hstep.trans (List.perm_cons_erase hx).symm

theorem kahnLoopAux_length_le (succs : String → List String) :
    ∀ (fuel : Nat) (r : List String) (d : String → Nat),
      (kahnLoopAux succs fuel r d).length ≤ fuel := by
  intro fuel
  induction fuel with
  | zero => intro r d; simp [kahnLoopAux]
  | succ n ih =>
    intro r d
    unfold kahnLoopAux
    by_cases h : r.isEmpty
    · simp [h]
    · simp only [h, Bool.false_eq_true, if_false, ite_false, List.length_cons]
      exact Nat.succ_le_succ (ih _ _)

theorem kahnLoopAux_flatten_perm (succs : String → List String) :
    ∀ (fuel : Nat) (r : List String) (d : String → Nat), r.Nodup → r.length ≤ fuel →
      (kahnLoopAux succs fuel r d).flatten.Perm r := by
  intro fuel
  induction fuel with
  | zero =>
    intro r d _ hlen
    have : r = [] := List.length_eq_zero.mp (Nat.le_zero.mp hlen)
    subst this
    simp [kahnLoopAux]
  | succ n ih =>
    intro r d hnd hlen
    unfold kahnLoopAux
    by_cases h : r.isEmpty
    · rw [List.isEmpty_iff] at h
      subst h
      simp
    · have hne : r ≠ [] := by
        rw [List.isEmpty_iff] at h; exact h
      simp only [h, Bool.false_eq_true, if_false, ite_false, List.flatten_cons]
      set batch := kahnBatch d r with hbatch
      have hbsub := kahnBatch_subset d r
      have hbnd := kahnBatch_nodup d r hnd
      have hbne := kahnBatch_ne_nil d r hne
      have hperm : (batch ++ batch.foldl (fun r x => r.erase x) r).Perm r :=
        erase_foldl_perm batch r hbnd hbsub hnd
      have hfst : (List.foldl (kahnStep succs) (r, d) batch).1 =
          batch.foldl (fun r x => r.erase x) r := kahnStep_fst succs batch r d
      rw [hfst]
      set r' := batch.foldl (fun r x => r.erase x) r with hr'
      have hr'nd : r'.Nodup :=
        ((hperm.nodup_iff).mpr hnd).sublist (List.sublist_append_right batch r')
      have hr'len : r'.length ≤ n := by
        have h1 : batch.length + r'.length = r.length := by
          have := hperm.length_eq
          simpa using this
        have h2 : 1 ≤ batch.length := List.length_pos.mpr hbne
        omega
      have ihp := ih r' ((List.foldl (kahnStep succs) (r, d) batch).2) hr'nd hr'len
      exact (ihp.append_left batch).trans hperm

theorem kahnLoopAux_batches (succs : String → List String) :
    ∀ (fuel : Nat) (r : List String) (d : String → Nat) (b : List String),
      b ∈ kahnLoopAux succs fuel r d → b.Sorted strLeP ∧ b ≠ [] := by
  intro fuel
  induction fuel with
  | zero => intro r d b hb; simp [kahnLoopAux] at hb
  | succ n ih =>
    intro r d b hb
    unfold kahnLoopAux at hb
    by_cases h : r.isEmpty
    · simp [h] at hb
    · simp only [h, Bool.false_eq_true, if_false, ite_false, List.mem_cons] at hb
      rcases hb with rfl | hb
      · have hne : r ≠ [] := by rw [List.isEmpty_iff] at h; exact h
        exact ⟨kahnBatch_sorted d r, kahnBatch_ne_nil d r hne⟩
      · exact ih _ _ b hb

/-! ### Rank lookup: the rank list maps each ordered id to its position -/

theorem lookup_enumFrom_swap :
    ∀ (l : List String), l.Nodup → ∀ (i : Nat) (h : i < l.length) (n : Nat),
      ((l.enumFrom n).map fun p => (p.2, p.1)).lookup (l.get ⟨i, h⟩) = some (n + i) := by
  intro l
  induction l with
  | nil => intro _ i h; cases h
  | cons a t ih =>
    intro hnd i h n
    rcases i with - | j
    · simp [List.enumFrom_cons, List.lookup_cons]
    · have ha : t.get ⟨j, Nat.lt_of_succ_lt_succ h⟩ ≠ a := by
        intro hc
        have : a ∈ t := by
          rw [← hc]
          exact List.get_mem t j (Nat.lt_of_succ_lt_succ h)
        exact (List.nodup_cons.mp hnd).1 this
      simp only [List.enumFrom_cons, List.map_cons, List.get_cons_succ]
      rw [List.lookup_cons]
      have hbeq : (t.get ⟨j, Nat.lt_of_succ_lt_succ h⟩ == a) = false := by
        rw [beq_eq_false_iff_ne]
        exact ha
      rw [hbeq]
      have harith : n + 1 + j = n + (j + 1) := by omega
      have := ih (List.nodup_cons.mp hnd).2 j (Nat.lt_of_succ_lt_succ h) (n + 1)
      rw [this, harith]

/-! ### C5: rank totality and uniqueness of the operator sequencer -/

/-- C5: the operator sequencer emits every operator exactly once; its rank
list assigns to each emitted operator the position at which it was emitted
(hence ranks are total and pairwise distinct), and each per-round ready set
is emitted in ascending lexicographic id order. -/
theorem topologicalSortPOs_rank_assignment (pos : List ProcessOperator)
    (states : List State) (g : ConnectivityGraph) :
    (topologicalSortPOs pos states g).1.Nodup ∧
    (∀ p ∈ pos, p.id ∈ (topologicalSortPOs pos states g).1) ∧
    (∀ (i : Nat) (h : i < (topologicalSortPOs pos states g).1.length),
      (topologicalSortPOs pos states g).2.lookup
        ((topologicalSortPOs pos states g).1.get ⟨i, h⟩) = some i) ∧
    (∀ b ∈ topoBatches pos states g, b.Sorted strLeP) := by
  have hperm : (topoBatches pos states g).flatten.Perm (firstDedup (pos.map (·.id))) := by
    unfold topoBatches
    exact kahnLoopAux_flatten_perm _ _ _ _ (nodup_firstDedup _) le_rfl
  have horder : (topologicalSortPOs pos states g).1 = (topoBatches pos states g).flatten := rfl
  have hnd : (topologicalSortPOs pos states g).1.Nodup := by
    rw [horder]
    exact (nodup_firstDedup _).perm hperm.symm
  refine ⟨hnd, ?_, ?_, ?_⟩
  · intro p hp
    rw [horder, hperm.mem_iff, mem_firstDedup]
    exact List.mem_map_of_mem (·.id) hp
  · intro i h
    have : (topologicalSortPOs pos states g).2 =
        ((topologicalSortPOs pos states g).1.enumFrom 0).map fun p => (p.2, p.1) := by
      show ((topoBatches pos states g).flatten.enum.map fun p => (p.2, p.1)) = _
      rfl
    rw [this]
    have := lookup_enumFrom_swap (topologicalSortPOs pos states g).1 hnd i h 0
    rw [this]
    congr 1
    omega
  · intro b hb
    exact (kahnLoopAux_batches _ _ _ _ b hb).1

/-- C6: the sequencing loop runs at most one round per operator and emits
every operator even on cyclic inputs; whenever no remaining operator has
zero in-degree, the round emits exactly one forced candidate, minimal for
"lowest remaining in-degree, ties by ascending id"; and the concrete
3-operator cycle A→B→C→A (via intermediate states) yields ranks 0, 1, 2. -/
theorem topologicalSortPOs_cycle_termination :
    (∀ (pos : List ProcessOperator) (states : List State) (g : ConnectivityGraph),
      (topoBatches pos states g).length ≤ pos.length ∧
      ∀ p ∈ pos, p.id ∈ (topoBatches pos states g).flatten) ∧
    (∀ (inDeg : String → Nat) (remaining : List String), remaining ≠ [] →
      remaining.filter (fun id => inDeg id = 0) = [] →
      ∃ m, kahnBatch inDeg remaining = [m] ∧ m ∈ remaining ∧
        ∀ x ∈ remaining, cycleLeP inDeg m x) ∧
    (topologicalSortPOs
        [⟨"A", "A", none, none⟩, ⟨"B", "B", none, none⟩, ⟨"C", "C", none, none⟩]
        [⟨"sAB", .product, "sAB", none, none, none⟩, ⟨"sBC", .product, "sBC", none, none, none⟩,
          ⟨"sCA", .product, "sCA", none, none, none⟩]
        (buildConnectivityGraph
          [⟨"sAB", .product, "sAB", none, none, none⟩, ⟨"sBC", .product, "sBC", none, none, none⟩,
            ⟨"sCA", .product, "sCA", none, none, none⟩]
          [⟨"A", "A", none, none⟩, ⟨"B", "B", none, none⟩, ⟨"C", "C", none, none⟩]
          [⟨"f1", "A", "sAB", .flow, none, none⟩, ⟨"f2", "sAB", "B", .flow, none, none⟩,
            ⟨"f3", "B", "sBC", .flow, none, none⟩, ⟨"f4", "sBC", "C", .flow, none, none⟩,
            ⟨"f5", "C", "sCA", .flow, none, none⟩, ⟨"f6", "sCA", "A", .flow, none, none⟩]
          [])).2 = [("A", 0), ("B", 1), ("C", 2)] := by
  refine ⟨?_, ?_, by decide⟩
  · intro pos states g
    constructor
    · unfold topoBatches
      exact le_trans (kahnLoopAux_length_le _ _ _ _)
        (le_trans (length_firstDedup_le _) (by simp))
    · intro p hp
      have hperm : (topoBatches pos states g).flatten.Perm (firstDedup (pos.map (·.id))) := by
        unfold topoBatches
        exact kahnLoopAux_flatten_perm _ _ _ _ (nodup_firstDedup _) le_rfl
      rw [hperm.mem_iff, mem_firstDedup]
      exact List.mem_map_of_mem (·.id) hp
  · intro inDeg remaining hne hfilter
    rw [kahnBatch_forced inDeg remaining hfilter]
    rcases hs : remaining.insertionSort (cycleLeP inDeg) with _ | ⟨m, rest⟩
    · exact absurd (insertionSort_eq_nil_iff remaining |>.mp hs) hne
    · refine ⟨m, rfl, ?_, ?_⟩
      · have : m ∈ remaining.insertionSort (cycleLeP inDeg) := by
          rw [hs]; exact List.mem_cons_self m rest
        exact (List.perm_insertionSort (cycleLeP inDeg) remaining).mem_iff.mp this
      · intro x hx
        have hx' : x ∈ remaining.insertionSort (cycleLeP inDeg) :=
          (List.perm_insertionSort (cycleLeP inDeg) remaining).mem_iff.mpr hx
        rw [hs] at hx'
        rw [List.mem_cons] at hx'
        rcases hx' with rfl | hx'
        · exact cycleLeP_refl inDeg x
        · have hsort := List.sorted_insertionSort (cycleLeP inDeg) remaining
          rw [hs] at hsort
          exact List.rel_of_sorted_cons hsort x hx'

/-- Witness for the cycle-termination theorem: instantiating the forced-pick
clause on a concrete all-blocked remaining set. -/
theorem topologicalSortPOs_cycle_termination_witness :
    ∃ m, kahnBatch (fun _ => 1) ["B", "A"] = [m] ∧ m ∈ ["B", "A"] ∧
      ∀ x ∈ ["B", "A"], cycleLeP (fun _ => 1) m x :=
  topologicalSortPOs_cycle_termination.2.1 (fun _ => 1) ["B", "A"] (by decide) (by decide)

/-- Witness for the rank-assignment theorem: the first emitted operator of a
concrete two-operator system has rank 0. -/
theorem topologicalSortPOs_rank_assignment_witness :
    (topologicalSortPOs [⟨"B", "B", none, none⟩, ⟨"A", "A", none, none⟩] []
        (buildConnectivityGraph [] [⟨"B", "B", none, none⟩, ⟨"A", "A", none, none⟩] [] [])).2.lookup
      ((topologicalSortPOs [⟨"B", "B", none, none⟩, ⟨"A", "A", none, none⟩] []
          (buildConnectivityGraph [] [⟨"B", "B", none, none⟩, ⟨"A", "A", none, none⟩] []
            [])).1.get ⟨0, by decide⟩) = some 0 :=
  (topologicalSortPOs_rank_assignment
    [⟨"B", "B", none, none⟩, ⟨"A", "A", none, none⟩] []
    (buildConnectivityGraph [] [⟨"B", "B", none, none⟩, ⟨"A", "A", none, none⟩] []
      [])).2.2.1 0 (by decide)

/-! ### C2: explicit placement passthrough -/

/-- C2 (amended): for a state appearing in at least one flow reference (so
the no-edges disconnected short-circuit does not fire), an explicit
directional or internal placement annotation is an exact passthrough,
regardless of the state's edges. -/
theorem classifyState_explicit_passthrough (s : State) (g : ConnectivityGraph)
    (poRank : Option (String → Option Nat)) (maxRank : ℤ)
    (href : s.id ∈ g.allFlowRefs) :
    (s.placement = some .boundaryTop → classifyState s g poRank maxRank = .boundaryTop) ∧
    (s.placement = some .boundaryBottom → classifyState s g poRank maxRank = .boundaryBottom) ∧
    (s.placement = some .boundaryLeft → classifyState s g poRank maxRank = .boundaryLeft) ∧
    (s.placement = some .boundaryRight → classifyState s g poRank maxRank = .boundaryRight) ∧
    (s.placement = some .internal → classifyState s g poRank maxRank = .internal) := by
  refine ⟨?_, ?_, ?_, ?_, ?_⟩ <;> intro hp <;> simp [classifyState, href, hp]

theorem classifyState_explicit_passthrough_witness :
    classifyState ⟨"S1", .product, "S1", some .boundaryLeft, none, none⟩
      (buildConnectivityGraph [⟨"S1", .product, "S1", some .boundaryLeft, none, none⟩] []
        [⟨"f1", "S1", "X", .flow, none, none⟩] []) none 0 = .boundaryLeft :=
  (classifyState_explicit_passthrough _ _ none 0 (by decide)).2.2.1 (by decide)

/-- C2 (counterexample): a state with an explicit `boundary-top` annotation
that participates in no flow edge is classified `disconnected`, not
`boundary-top` — the code checks the no-edges rule before the annotation. -/
theorem classifyState_explicit_cex :
    (⟨"S1", .product, "S1", some .boundaryTop, none, none⟩ : State).placement
        = some .boundaryTop ∧
    classifyState ⟨"S1", .product, "S1", some .boundaryTop, none, none⟩
      (buildConnectivityGraph [⟨"S1", .product, "S1", some .boundaryTop, none, none⟩] [] [] [])
      none 0 ≠ .boundaryTop := by
  decide

/-! ### C8: product boundary side from ranks -/

theorem mem_allFlowRefs_of_target (states : List State) (pos : List ProcessOperator)
    (flows : List Flow) (usages : List Usage) (sid : String)
    (h : (buildConnectivityGraph states pos flows usages).stateToTargetPOs sid ≠ []) :
    sid ∈ (buildConnectivityGraph states pos flows usages).allFlowRefs := by
  simp only [buildConnectivityGraph] at h ⊢
  by_cases hmem : sid ∈ stateIdsOf states
  · rw [if_pos hmem, Ne, List.map_eq_nil_iff] at h
    rcases List.exists_mem_of_ne_nil _ h with ⟨f, hf⟩
    rcases List.mem_filter.mp hf with ⟨hfl, hp⟩
    rcases of_decide_eq_true hp with ⟨-, hsrc⟩
    rw [List.mem_flatMap]
    exact ⟨f, hfl, by rw [← hsrc]; exact List.mem_cons_self _ _⟩
  · rw [if_neg hmem] at h
    exact absurd rfl h

theorem mem_allFlowRefs_of_source (states : List State) (pos : List ProcessOperator)
    (flows : List Flow) (usages : List Usage) (sid : String)
    (h : (buildConnectivityGraph states pos flows usages).stateToSourcePOs sid ≠ []) :
    sid ∈ (buildConnectivityGraph states pos flows usages).allFlowRefs := by
  simp only [buildConnectivityGraph] at h ⊢
  by_cases hmem : sid ∈ stateIdsOf states
  · rw [if_pos hmem, Ne, List.map_eq_nil_iff] at h
    rcases List.exists_mem_of_ne_nil _ h with ⟨f, hf⟩
    rcases List.mem_filter.mp hf with ⟨hfl, hp⟩
    rcases of_decide_eq_true hp with ⟨-, htgt⟩
    rw [List.mem_flatMap]
    refine ⟨f, hfl, ?_⟩
    rw [← htgt]
    simp
  · rw [if_neg hmem] at h
    exact absurd rfl h

/-- C8: for a product state with no placement annotation or the generic
`boundary` annotation, built over a real connectivity graph: a pure source
is `boundary-left` exactly when the maximum rank is positive and all fed
operators have positive rank (otherwise `boundary-top`), and a pure sink is
`boundary-right` exactly when its maximum source-operator rank is below the
maximum rank (otherwise `boundary-bottom`). -/
theorem classifyState_product_rank_sides (states : List State)
    (pos : List ProcessOperator) (flows : List Flow) (usages : List Usage)
    (s : State) (rank : String → Option Nat) (maxRank : ℤ)
    (hplace : s.placement = none ∨ s.placement = some .boundary)
    (hprod : s.state_type = .product) :
    ((buildConnectivityGraph states pos flows usages).stateToTargetPOs s.id ≠ [] →
      (buildConnectivityGraph states pos flows usages).stateToSourcePOs s.id = [] →
      classifyState s (buildConnectivityGraph states pos flows usages) (some rank) maxRank =
        if 0 < maxRank ∧ 0 < listMinNat
            (((buildConnectivityGraph states pos flows usages).stateToTargetPOs s.id).map
              fun pid => (rank pid).getD 0)
        then .boundaryLeft else .boundaryTop) ∧
    ((buildConnectivityGraph states pos flows usages).stateToSourcePOs s.id ≠ [] →
      (buildConnectivityGraph states pos flows usages).stateToTargetPOs s.id = [] →
      classifyState s (buildConnectivityGraph states pos flows usages) (some rank) maxRank =
        if (listMaxNat
              (((buildConnectivityGraph states pos flows usages).stateToSourcePOs s.id).map
                fun pid => (rank pid).getD 0) : ℤ) < maxRank
        then .boundaryRight else .boundaryBottom) := by
  constructor
  · intro htgt hsrc
    have href := mem_allFlowRefs_of_target states pos flows usages s.id htgt
    have hte : ((buildConnectivityGraph states pos flows usages).stateToTargetPOs
        s.id).isEmpty = false := List.isEmpty_eq_false.mpr htgt
    have hclass : classifyState s (buildConnectivityGraph states pos flows usages)
        (some rank) maxRank =
        productBoundarySide true (some rank)
          ((buildConnectivityGraph states pos flows usages).stateToTargetPOs s.id) maxRank := by
      rcases hplace with hp | hp <;>
        simp [classifyState, href, hp, hprod, hsrc, hte]
    rw [hclass]
    by_cases hm : 0 < maxRank <;>
      by_cases hmin : 0 < listMinNat
        (((buildConnectivityGraph states pos flows usages).stateToTargetPOs s.id).map
          fun pid => (rank pid).getD 0) <;>
      simp [productBoundarySide, htgt, hm, hmin]
  · intro hsrc htgt
    have href := mem_allFlowRefs_of_source states pos flows usages s.id hsrc
    have hse : ((buildConnectivityGraph states pos flows usages).stateToSourcePOs
        s.id).isEmpty = false := List.isEmpty_eq_false.mpr hsrc
    have hclass : classifyState s (buildConnectivityGraph states pos flows usages)
        (some rank) maxRank =
        productBoundarySide false (some rank)
          ((buildConnectivityGraph states pos flows usages).stateToSourcePOs s.id) maxRank := by
      rcases hplace with hp | hp <;>
        simp [classifyState, href, hp, hprod, htgt, hse]
    rw [hclass]
    by_cases hm : 0 < maxRank
    · by_cases hr : (listMaxNat
          (((buildConnectivityGraph states pos flows usages).stateToSourcePOs s.id).map
            fun pid => (rank pid).getD 0) : ℤ) < maxRank <;>
        simp [productBoundarySide, hsrc, hm, hr]
    · have hr : ¬((listMaxNat
          (((buildConnectivityGraph states pos flows usages).stateToSourcePOs s.id).map
            fun pid => (rank pid).getD 0) : ℤ) < maxRank) := by omega
      simp [productBoundarySide, hsrc, hm, hr]

/-- Witness for the rank-side theorem: a pure-source product feeding the
only operator (rank 0, maxRank 0) is classified `boundary-top`. -/
theorem classifyState_product_rank_sides_witness :
    classifyState ⟨"S1", .product, "S1", none, none, none⟩
      (buildConnectivityGraph [⟨"S1", .product, "S1", none, none, none⟩]
        [⟨"P1", "P1", none, none⟩] [⟨"f1", "S1", "P1", .flow, none, none⟩] [])
      (some fun id => if id = "P1" then some 0 else none) 0 =
      if 0 < (0 : ℤ) ∧ 0 < listMinNat
          (((buildConnectivityGraph [⟨"S1", .product, "S1", none, none, none⟩]
            [⟨"P1", "P1", none, none⟩] [⟨"f1", "S1", "P1", .flow, none, none⟩]
            []).stateToTargetPOs "S1").map
            fun pid => ((if pid = "P1" then some 0 else none : Option Nat)).getD 0)
      then .boundaryLeft else .boundaryTop :=
  (classifyState_product_rank_sides [⟨"S1", .product, "S1", none, none, none⟩]
    [⟨"P1", "P1", none, none⟩] [⟨"f1", "S1", "P1", .flow, none, none⟩] []
    ⟨"S1", .product, "S1", none, none, none⟩
    (fun id => if id = "P1" then some 0 else none) 0
    (Or.inl rfl) rfl).1 (by decide) (by decide)

/-! ### C9: alt-flow-only sinks -/

/-- C9 (amended): a state is marked an alt-flow-only sink iff it has at
least one incoming alternative flow from an operator and zero incoming
NON-alternative flows from an operator — the code's `else` branch counts
parallel flows alongside regular flows. -/
theorem altFlowOnlySinks_iff (states : List State) (pos : List ProcessOperator)
    (flows : List Flow) (usages : List Usage) (sid : String) :
    sid ∈ (buildConnectivityGraph states pos flows usages).altFlowOnlySinks ↔
      ((∃ f ∈ flows, isPoToState (stateIdsOf states) (opIdsOf pos) f ∧
          f.target_ref = sid ∧ f.flow_type = FlowType.alternativeFlow) ∧
        ¬ ∃ f ∈ flows, isPoToState (stateIdsOf states) (opIdsOf pos) f ∧
          f.target_ref = sid ∧ f.flow_type ≠ FlowType.alternativeFlow) := by
  simp only [buildConnectivityGraph, stateHasAltFromPo, stateHasRegularFromPo,
    List.mem_filter, List.mem_filterMap, Option.ite_none_right_eq_some, Option.some_inj,
    decide_eq_true_eq]
  constructor
  · rintro ⟨⟨f, hf, ⟨hpo, hft⟩, htgt⟩, hreg⟩
    refine ⟨⟨f, hf, hpo, htgt, hft⟩, ?_⟩
    rintro ⟨f', hf', hpo', htgt', hft'⟩
    exact hreg ⟨f', hf', ⟨hpo', hft'⟩, htgt'⟩
  · rintro ⟨⟨f, hf, hpo, htgt, hft⟩, hreg⟩
    refine ⟨⟨f, hf, ⟨hpo, hft⟩, htgt⟩, ?_⟩
    rintro ⟨f', hf', ⟨hpo', hft'⟩, htgt'⟩
    exact hreg ⟨f', hf', hpo', htgt', hft'⟩

/-- C9 (counterexample): one alternative and one parallel PO→state flow.
The claim's reading (zero flow-type `flow` edges) would make "T" an
alt-flow-only sink; the code does not, because the parallel flow counts as
a disqualifying regular flow. -/
theorem altFlowOnlySinks_cex :
    ("T" ∉ (buildConnectivityGraph [⟨"T", .product, "T", none, none, none⟩]
        [⟨"P", "P", none, none⟩]
        [⟨"fa", "P", "T", .alternativeFlow, none, none⟩,
          ⟨"fp", "P", "T", .parallelFlow, none, none⟩] []).altFlowOnlySinks) ∧
    (∃ f ∈ ([⟨"fa", "P", "T", .alternativeFlow, none, none⟩,
          ⟨"fp", "P", "T", .parallelFlow, none, none⟩] : List Flow),
        isPoToState (stateIdsOf [⟨"T", .product, "T", none, none, none⟩])
          (opIdsOf [⟨"P", "P", none, none⟩]) f ∧
        f.target_ref = "T" ∧ f.flow_type = FlowType.alternativeFlow) ∧
    ¬(∃ f ∈ ([⟨"fa", "P", "T", .alternativeFlow, none, none⟩,
          ⟨"fp", "P", "T", .parallelFlow, none, none⟩] : List Flow),
        isPoToState (stateIdsOf [⟨"T", .product, "T", none, none, none⟩])
          (opIdsOf [⟨"P", "P", none, none⟩]) f ∧
        f.target_ref = "T" ∧ f.flow_type = FlowType.flow) := by
  decide

/-! ### C1: layout keeps malformed references; routing drops them -/

theorem flowConnections_proj (flows : List Flow) (tops bots backs : List String) :
    (flowConnections flows tops bots backs).map (fun c => (c.id, c.sourceId, c.targetId)) =
      flows.map fun f => (f.id, f.source_ref, f.target_ref) := by
  unfold flowConnections
  rw [List.map_map]
  apply List.map_congr_left
  intro f hf
  simp only [Function.comp]
  split_ifs <;> rfl

theorem usageConnections_proj (usages : List Usage) :
    (usageConnections usages).map (fun c => (c.id, c.sourceId, c.targetId)) =
      usages.map fun u => (u.id, u.process_operator_ref, u.technical_resource_ref) := by
  unfold usageConnections
  rw [List.map_map]
  rfl

/-- C1 (amended): `layoutProcessModel` does not validate references — for a
model without sub-systems whose system is non-empty, the connections array
contains exactly one entry per flow and per usage, with `sourceId` and
`targetId` copied verbatim from the refs (dangling refs included); no
exception is raised (the function is total).  Connections with unresolvable
endpoints are only dropped later, by `computeRouting`. -/
theorem layoutProcessModel_connections_verbatim (model : ProcessModel)
    (cfg : LayoutConfig) (hsl : model.system_limits = [])
    (hne : ¬(model.states = [] ∧ model.process_operators = [])) :
    (layoutProcessModel model cfg).connections.map (fun c => (c.id, c.sourceId, c.targetId)) =
      model.flows.map (fun f => (f.id, f.source_ref, f.target_ref)) ++
        model.usages.map (fun u => (u.id, u.process_operator_ref, u.technical_resource_ref)) := by
  have hb : (model.states.isEmpty && model.process_operators.isEmpty) = false := by
    by_cases h1 : model.states = []
    · have h2 : model.process_operators ≠ [] := fun h => hne ⟨h1, h⟩
      simp [List.isEmpty_eq_false.mpr h2]
    · simp [List.isEmpty_eq_false.mpr h1]
  simp [layoutProcessModel, hsl, layoutSingleSystem, hb, List.map_append,
    flowConnections_proj, usageConnections_proj]

theorem layoutProcessModel_connections_verbatim_witness :
    (layoutProcessModel ⟨"T", [], [⟨"S1", .product, "S1", none, none, none⟩], [], [],
        [⟨"f1", "S1", "X", .flow, none, none⟩], []⟩ DEFAULT_CONFIG).connections.map
      (fun c => (c.id, c.sourceId, c.targetId)) =
      ([⟨"f1", "S1", "X", .flow, none, none⟩] : List Flow).map
        (fun f => (f.id, f.source_ref, f.target_ref)) ++
        ([] : List Usage).map (fun u => (u.id, u.process_operator_ref, u.technical_resource_ref)) :=
  layoutProcessModel_connections_verbatim
    ⟨"T", [], [⟨"S1", .product, "S1", none, none, none⟩], [], [],
      [⟨"f1", "S1", "X", .flow, none, none⟩], []⟩ DEFAULT_CONFIG rfl (by decide)

/-- C1 (counterexample): a model with state "S1" and a flow "S1" → "X"
(dangling target).  The layout result contains a connection whose targetId
"X" matches no element id — malformed references are NOT dropped from the
layout's connections array. -/
theorem layoutProcessModel_dangling_cex :
    ∃ c ∈ (layoutProcessModel ⟨"T", [], [⟨"S1", .product, "S1", none, none, none⟩], [], [],
        [⟨"f1", "S1", "X", .flow, none, none⟩], []⟩ DEFAULT_CONFIG).connections,
      ∀ e ∈ (layoutProcessModel ⟨"T", [], [⟨"S1", .product, "S1", none, none, none⟩], [], [],
          [⟨"f1", "S1", "X", .flow, none, none⟩], []⟩ DEFAULT_CONFIG).elements,
        e.id ≠ c.targetId := by
  decide

/-! ### Routing lemmas -/

theorem orthogonalWaypoints_length (sp tp : Point) (ss ts : Side) :
    2 ≤ (orthogonalWaypoints sp tp ss ts).length := by
  unfold orthogonalWaypoints
  split_ifs <;> simp

theorem lookupEl_some (els : List DiagramElement) (id : String) (e : DiagramElement)
    (h : lookupEl els id = some e) : e ∈ els ∧ e.id = id := by
  unfold lookupEl at h
  refine ⟨?_, ?_⟩
  · have := List.mem_of_find?_eq_some h
    exact (List.mem_reverse).mp this
  · have := List.find?_some h
    exact eq_of_beq this

theorem mem_initialMetas (els : List DiagramElement) (conns : List DiagramConnection)
    (m : ConnectionMeta) (h : m ∈ initialMetas els conns) :
    m.conn ∈ conns ∧ lookupEl els m.conn.sourceId = some m.source ∧
      lookupEl els m.conn.targetId = some m.target ∧
      m.isDirect = decide (m.conn.flowType = some FlowType.alternativeFlow) := by
  unfold initialMetas at h
  rcases List.mem_filterMap.mp h with ⟨conn, hconn, hm⟩
  rcases hs : lookupEl els conn.sourceId with _ | source
  · rw [hs] at hm; cases hm
  · rcases ht : lookupEl els conn.targetId with _ | target
    · rw [hs, ht] at hm; cases hm
    · rw [hs, ht] at hm
      injection hm with hm
      subst hm
      exact ⟨hconn, hs, ht, rfl⟩

theorem mem_alignedMetas (els : List DiagramElement) (conns : List DiagramConnection)
    (m : ConnectionMeta) (h : m ∈ alignedMetas els conns) :
    ∃ m0 ∈ initialMetas els conns, m.conn = m0.conn ∧ m.source = m0.source ∧
      m.target = m0.target ∧ m.isDirect = m0.isDirect := by
  unfold alignedMetas alignFlowSides at h
  rcases List.mem_map.mp h with ⟨m0, hm0, hm⟩
  refine ⟨m0, hm0, ?_⟩
  subst hm
  split_ifs <;> exact ⟨rfl, rfl, rfl, rfl⟩

theorem mem_computeRouting (els : List DiagramElement) (conns : List DiagramConnection)
    (rc : RoutedConnection) (h : rc ∈ computeRouting els conns) :
    ∃ m ∈ alignedMetas els conns, ∃ sp tp : Point,
      rc.connection = m.conn ∧ rc.isDirect = m.isDirect ∧
      rc.points = (if m.isDirect then [sp, tp]
        else orthogonalWaypoints sp tp m.sourceSide m.targetSide) := by
  unfold computeRouting at h
  rcases List.mem_filterMap.mp h with ⟨p, hp, hm⟩
  rcases hs : sourcePortOf (allWrites (alignedMetas els conns)) p.1 with _ | sp
  · rw [hs] at hm; cases hm
  · rcases ht : targetPortOf (allWrites (alignedMetas els conns)) p.1 with _ | tp
    · rw [hs, ht] at hm; cases hm
    · rw [hs, ht] at hm
      injection hm with hm
      subst hm
      have hmem : p.2 ∈ alignedMetas els conns := (List.of_mem_zip hp).2
      exact ⟨p.2, hmem, sp, tp, rfl, rfl, rfl⟩

/-! ### C7: routing drops dangling references and always emits ≥ 2 points -/

/-- C7: `computeRouting` is total (never throws); every emitted routed
connection resolves both its endpoint ids to elements of the input list
(connections with dangling ids are excluded), and its waypoint list has at
least 2 points. -/
theorem computeRouting_dangling_safety (els : List DiagramElement)
    (conns : List DiagramConnection) (rc : RoutedConnection)
    (h : rc ∈ computeRouting els conns) :
    (∃ e ∈ els, e.id = rc.connection.sourceId) ∧
      (∃ e ∈ els, e.id = rc.connection.targetId) ∧
      rc.connection ∈ conns ∧ 2 ≤ rc.points.length := by
  rcases mem_computeRouting els conns rc h with ⟨m, hm, sp, tp, hconn, -, hpts⟩
  rcases mem_alignedMetas els conns m hm with ⟨m0, hm0, hc0, hsrc0, htgt0, -⟩
  rcases mem_initialMetas els conns m0 hm0 with ⟨hcc, hls, hlt, -⟩
  refine ⟨?_, ?_, ?_, ?_⟩
  · rcases lookupEl_some els m0.conn.sourceId m0.source hls with ⟨hmem, hid⟩
    exact ⟨m0.source, hmem, by rw [hid, hconn, hc0]⟩
  · rcases lookupEl_some els m0.conn.targetId m0.target hlt with ⟨hmem, hid⟩
    exact ⟨m0.target, hmem, by rw [hid, hconn, hc0]⟩
  · rw [hconn, hc0]; exact hcc
  · rw [hpts]
    by_cases hd : m.isDirect
    · simp [hd]
    · simp only [hd, if_false, ite_false, Bool.false_eq_true]
      exact orthogonalWaypoints_length sp tp m.sourceSide m.targetSide

/-- Witness for the dangling-safety theorem: the first routed connection of
a concrete two-element diagram. -/
theorem computeRouting_dangling_safety_witness :
    (∃ e ∈ [(⟨"A", .processOperator, "A", 0, 0, 150, 80, none, none⟩ : DiagramElement),
        ⟨"B", .state, "B", 50, 200, 50, 50, some .product, none⟩],
      e.id = ((computeRouting
          [⟨"A", .processOperator, "A", 0, 0, 150, 80, none, none⟩,
            ⟨"B", .state, "B", 50, 200, 50, 50, some .product, none⟩]
          [⟨"c1", "A", "B", some .flow, false, none, some .bottom, some .top⟩,
            ⟨"c2", "A", "ZZZ", some .flow, false, none, none, none⟩]).get
        ⟨0, by decide⟩).connection.sourceId) ∧
    (∃ e ∈ [(⟨"A", .processOperator, "A", 0, 0, 150, 80, none, none⟩ : DiagramElement),
        ⟨"B", .state, "B", 50, 200, 50, 50, some .product, none⟩],
      e.id = ((computeRouting
          [⟨"A", .processOperator, "A", 0, 0, 150, 80, none, none⟩,
            ⟨"B", .state, "B", 50, 200, 50, 50, some .product, none⟩]
          [⟨"c1", "A", "B", some .flow, false, none, some .bottom, some .top⟩,
            ⟨"c2", "A", "ZZZ", some .flow, false, none, none, none⟩]).get
        ⟨0, by decide⟩).connection.targetId) ∧
    ((computeRouting
          [⟨"A", .processOperator, "A", 0, 0, 150, 80, none, none⟩,
            ⟨"B", .state, "B", 50, 200, 50, 50, some .product, none⟩]
          [⟨"c1", "A", "B", some .flow, false, none, some .bottom, some .top⟩,
            ⟨"c2", "A", "ZZZ", some .flow, false, none, none, none⟩]).get
        ⟨0, by decide⟩).connection ∈
      [(⟨"c1", "A", "B", some .flow, false, none, some .bottom, some .top⟩ : DiagramConnection),
        ⟨"c2", "A", "ZZZ", some .flow, false, none, none, none⟩] ∧
    2 ≤ ((computeRouting
          [⟨"A", .processOperator, "A", 0, 0, 150, 80, none, none⟩,
            ⟨"B", .state, "B", 50, 200, 50, 50, some .product, none⟩]
          [⟨"c1", "A", "B", some .flow, false, none, some .bottom, some .top⟩,
            ⟨"c2", "A", "ZZZ", some .flow, false, none, none, none⟩]).get
        ⟨0, by decide⟩).points.length :=
  computeRouting_dangling_safety
    [⟨"A", .processOperator, "A", 0, 0, 150, 80, none, none⟩,
      ⟨"B", .state, "B", 50, 200, 50, 50, some .product, none⟩]
    [⟨"c1", "A", "B", some .flow, false, none, some .bottom, some .top⟩,
      ⟨"c2", "A", "ZZZ", some .flow, false, none, none, none⟩]
    _ (List.get_mem _ 0 (by decide))

/-! ### C4: direct vs orthogonal waypoints -/

/-- C4: every routed alternative flow is a 2-point direct path; every other
routed connection is orthogonal via `orthogonalWaypoints`, which produces:
for two vertical sides a straight 2-point path when the xs agree and
otherwise a 4-point Z through the midpoint y; for two horizontal sides the
symmetric shape on y and the midpoint x; for mixed axes a 3-point
single-bend L taking one endpoint's coordinate on each axis. -/
theorem routing_direct_vs_orthogonal :
    (∀ (sp tp : Point) (ss ts : Side),
      ((ss = .bottom ∨ ss = .top) ∧ (ts = .top ∨ ts = .bottom) →
        orthogonalWaypoints sp tp ss ts =
          if sp.x = tp.x then [sp, tp]
          else [sp, ⟨sp.x, (sp.y + tp.y) / 2⟩, ⟨tp.x, (sp.y + tp.y) / 2⟩, tp]) ∧
      ((ss = .left ∨ ss = .right) ∧ (ts = .left ∨ ts = .right) →
        orthogonalWaypoints sp tp ss ts =
          if sp.y = tp.y then [sp, tp]
          else [sp, ⟨(sp.x + tp.x) / 2, sp.y⟩, ⟨(sp.x + tp.x) / 2, tp.y⟩, tp]) ∧
      ((ss = .bottom ∨ ss = .top) ∧ (ts = .left ∨ ts = .right) →
        orthogonalWaypoints sp tp ss ts = [sp, ⟨sp.x, tp.y⟩, tp]) ∧
      ((ss = .left ∨ ss = .right) ∧ (ts = .top ∨ ts = .bottom) →
        orthogonalWaypoints sp tp ss ts = [sp, ⟨tp.x, sp.y⟩, tp])) ∧
    (∀ (els : List DiagramElement) (conns : List DiagramConnection)
        (rc : RoutedConnection), rc ∈ computeRouting els conns →
      (rc.isDirect = true ↔ rc.connection.flowType = some FlowType.alternativeFlow) ∧
      (rc.connection.flowType = some FlowType.alternativeFlow → rc.points.length = 2) ∧
      (rc.connection.flowType ≠ some FlowType.alternativeFlow →
        ∃ sp tp ss ts, rc.points = orthogonalWaypoints sp tp ss ts)) := by
  constructor
  · intro sp tp ss ts
    refine ⟨?_, ?_, ?_, ?_⟩ <;> rintro ⟨h1 | h1, h2 | h2⟩ <;> subst h1 <;> subst h2 <;>
      simp [orthogonalWaypoints]
  · intro els conns rc h
    rcases mem_computeRouting els conns rc h with ⟨m, hm, sp, tp, hconn, hdir, hpts⟩
    rcases mem_alignedMetas els conns m hm with ⟨m0, hm0, hc0, -, -, hd0⟩
    rcases mem_initialMetas els conns m0 hm0 with ⟨-, -, -, hdd⟩
    have hiff : m.isDirect = decide (m.conn.flowType = some FlowType.alternativeFlow) := by
      rw [hd0, hdd, hc0]
    refine ⟨?_, ?_, ?_⟩
    · rw [hdir, hconn, hiff]
      simp
    · intro halt
      rw [hconn] at halt
      have hd : m.isDirect = true := by rw [hiff, halt]; simp
      rw [hpts, hd]
      simp
    · intro halt
      rw [hconn] at halt
      have hd : m.isDirect = false := by rw [hiff]; simpa using halt
      refine ⟨sp, tp, m.sourceSide, m.targetSide, ?_⟩
      rw [hpts, hd]
      simp

/-- Witness: the Z-path clause at concrete points and sides, and a concrete
alternative-flow connection routed with exactly 2 points. -/
theorem routing_direct_vs_orthogonal_witness :
    (orthogonalWaypoints ⟨0, 0⟩ ⟨5, 10⟩ Side.bottom Side.top =
      if (⟨0, 0⟩ : Point).x = (⟨5, 10⟩ : Point).x then [⟨0, 0⟩, ⟨5, 10⟩]
      else [⟨0, 0⟩, ⟨(⟨0, 0⟩ : Point).x, ((⟨0, 0⟩ : Point).y + (⟨5, 10⟩ : Point).y) / 2⟩,
        ⟨(⟨5, 10⟩ : Point).x, ((⟨0, 0⟩ : Point).y + (⟨5, 10⟩ : Point).y) / 2⟩, ⟨5, 10⟩]) ∧
    ((computeRouting
        [⟨"A", .processOperator, "A", 0, 0, 150, 80, none, none⟩,
          ⟨"B", .state, "B", 50, 200, 50, 50, some .product, none⟩]
        [⟨"a1", "A", "B", some .alternativeFlow, false, none, some .bottom,
          some .top⟩]).get ⟨0, by decide⟩).points.length = 2 :=
  ⟨(routing_direct_vs_orthogonal.1 ⟨0, 0⟩ ⟨5, 10⟩ Side.bottom Side.top).1
      ⟨Or.inl rfl, Or.inl rfl⟩,
    (routing_direct_vs_orthogonal.2
        [⟨"A", .processOperator, "A", 0, 0, 150, 80, none, none⟩,
          ⟨"B", .state, "B", 50, 200, 50, 50, some .product, none⟩]
        [⟨"a1", "A", "B", some .alternativeFlow, false, none, some .bottom, some .top⟩]
        _ (List.get_mem _ 0 (by decide))).2.1 (by decide)⟩

/-! ### C3: port-group entry lemmas -/

theorem exists_get?_cons (a : α) (l : List α) (Φ : Nat → α → Prop) :
    (∃ j m, (a :: l).get? j = some m ∧ Φ j m) ↔
      Φ 0 a ∨ ∃ j m, l.get? j = some m ∧ Φ (j + 1) m := by
  constructor
  · rintro ⟨j, m, hj, hΦ⟩
    rcases j with _ | j
    · rw [List.get?_cons_zero] at hj
      injection hj with hj
      subst hj
      exact Or.inl hΦ
    · rw [List.get?_cons_succ] at hj
      exact Or.inr ⟨j, m, hj, hΦ⟩
  · rintro (h | ⟨j, m, hj, hΦ⟩)
    · exact ⟨0, a, rfl, h⟩
    · exact ⟨j + 1, m, by simpa using hj, hΦ⟩

theorem mem_entriesForAux_iff (key : String × Side) :
    ∀ (l : List ConnectionMeta) (i : Nat) (e : PortEntry),
      e ∈ entriesForAux key l i ↔
        ∃ j m, l.get? j = some m ∧ e.metaIndex = i + j ∧
          ((e.isSource = true ∧ srcKey m = key) ∨ (e.isSource = false ∧ tgtKey m = key)) := by
  intro l
  induction l with
  | nil => intro i e; simp [entriesForAux]
  | cons m0 rest ih =>
    intro i e
    rw [exists_get?_cons m0 rest
      (fun j m => e.metaIndex = i + j ∧
        ((e.isSource = true ∧ srcKey m = key) ∨ (e.isSource = false ∧ tgtKey m = key)))]
    simp only [entriesForAux, List.mem_append, ih, List.mem_singleton]
    constructor
    · rintro ((h | h) | ⟨j, m, hj, hidx, hor⟩)
      · by_cases hs : srcKey m0 = key
        · rw [if_pos hs] at h
          rw [List.mem_singleton] at h
          subst h
          exact Or.inl ⟨rfl, Or.inl ⟨rfl, hs⟩⟩
        · rw [if_neg hs] at h
          cases h
      · by_cases ht : tgtKey m0 = key
        · rw [if_pos ht] at h
          rw [List.mem_singleton] at h
          subst h
          exact Or.inl ⟨rfl, Or.inr ⟨rfl, ht⟩⟩
        · rw [if_neg ht] at h
          cases h
      · exact Or.inr ⟨j, m, hj, by omega, hor⟩
    · rintro (⟨hidx, hor⟩ | ⟨j, m, hj, hidx, hor⟩)
      · rcases hor with ⟨hb, hkey⟩ | ⟨hb, hkey⟩
        · left
          left
          rw [if_pos hkey, List.mem_singleton]
          have h1 : e.metaIndex = i := by omega
          calc e = ⟨e.metaIndex, e.isSource⟩ := rfl
            _ = ⟨i, true⟩ := by rw [h1, hb]
        · left
          right
          rw [if_pos hkey, List.mem_singleton]
          have h1 : e.metaIndex = i := by omega
          calc e = ⟨e.metaIndex, e.isSource⟩ := rfl
            _ = ⟨i, false⟩ := by rw [h1, hb]
      · exact Or.inr ⟨j, m, hj, by omega, hor⟩

theorem mem_entriesFor_iff (metas : List ConnectionMeta) (key : String × Side)
    (e : PortEntry) :
    e ∈ entriesFor metas key ↔
      ∃ m, metas.get? e.metaIndex = some m ∧
        ((e.isSource = true ∧ srcKey m = key) ∨ (e.isSource = false ∧ tgtKey m = key)) := by
  rw [entriesFor, mem_entriesForAux_iff]
  constructor
  · rintro ⟨j, m, hj, hidx, hor⟩
    rw [Nat.zero_add] at hidx
    subst hidx
    exact ⟨m, hj, hor⟩
  · rintro ⟨m, hm, hor⟩
    exact ⟨e.metaIndex, m, hm, by omega, hor⟩

theorem metaAt_eq_of_get? (metas : List ConnectionMeta) (i : Nat) (m : ConnectionMeta)
    (h : metas.get? i = some m) : metaAt metas i = m := by
  rw [metaAt, List.getD_eq_get?, h, Option.getD_some]

theorem mem_entriesFor_index_lt (metas : List ConnectionMeta) (key : String × Side)
    (e : PortEntry) (h : e ∈ entriesFor metas key) : e.metaIndex < metas.length := by
  rcases (mem_entriesFor_iff metas key e).mp h with ⟨m, hm, -⟩
  rcases List.get?_eq_some.mp hm with ⟨hlt, -⟩
  exact hlt

theorem mem_entriesFor_key (metas : List ConnectionMeta) (key : String × Side)
    (e : PortEntry) (h : e ∈ entriesFor metas key) : entryKey metas e = key := by
  rcases (mem_entriesFor_iff metas key e).mp h with ⟨m, hm, hor⟩
  have hma := metaAt_eq_of_get? metas e.metaIndex m hm
  rcases hor with ⟨hb, hkey⟩ | ⟨hb, hkey⟩ <;> rw [entryKey, hb] <;> simp [hma, hkey]

theorem entriesFor_self_mem (metas : List ConnectionMeta) (i : Nat) (b : Bool)
    (h : i < metas.length) :
    (⟨i, b⟩ : PortEntry) ∈ entriesFor metas (entryKey metas ⟨i, b⟩) := by
  rw [mem_entriesFor_iff]
  refine ⟨metas.get ⟨i, h⟩, List.get?_eq_get h, ?_⟩
  have hma : metaAt metas i = metas.get ⟨i, h⟩ :=
    metaAt_eq_of_get? metas i _ (List.get?_eq_get h)
  cases b
  · right
    exact ⟨rfl, by simp [entryKey, hma]⟩
  · left
    exact ⟨rfl, by simp [entryKey, hma]⟩

theorem entriesFor_nodup (metas : List ConnectionMeta) (key : String × Side)
    (hk : ∀ m ∈ metas, ¬(srcKey m = key ∧ tgtKey m = key)) :
    ((entriesFor metas key).map (·.metaIndex)).Nodup := by
  suffices h : ∀ (l : List ConnectionMeta), (∀ m ∈ l, ¬(srcKey m = key ∧ tgtKey m = key)) →
      ∀ i, ((entriesForAux key l i).map (·.metaIndex)).Nodup by
    exact h metas hk 0
  intro l
  induction l with
  | nil => intro _ i; simp [entriesForAux]
  | cons m0 rest ih =>
    intro hl i
    have hlo : ∀ e ∈ entriesForAux key rest (i + 1), i + 1 ≤ e.metaIndex := by
      intro e he
      rcases (mem_entriesForAux_iff key rest (i + 1) e).mp he with ⟨j, m, -, hidx, -⟩
      omega
    have hnotin : (i : Nat) ∉ (entriesForAux key rest (i + 1)).map (·.metaIndex) := by
      rw [List.mem_map]
      rintro ⟨e, he, hidx⟩
      have := hlo e he
      omega
    have htail := ih (fun m hm => hl m (List.mem_cons_of_mem m0 hm)) (i + 1)
    have hm0 := hl m0 (List.mem_cons_self m0 rest)
    simp only [entriesForAux]
    by_cases hs : srcKey m0 = key <;> by_cases ht : tgtKey m0 = key
    · exact absurd ⟨hs, ht⟩ hm0
    · simp only [hs, ht, ite_true, ite_false, if_true, if_false, List.singleton_append,
        List.nil_append, List.append_nil, List.map_cons, List.nodup_cons, List.mem_map,
        not_exists, not_and]
      refine ⟨?_, by simpa using htail⟩
      intro x hx
      have := hlo x hx
      omega
    · simp only [hs, ht, ite_true, ite_false, if_true, if_false, List.singleton_append,
        List.nil_append, List.append_nil, List.map_cons, List.nodup_cons, List.mem_map,
        not_exists, not_and]
      refine ⟨?_, by simpa using htail⟩
      intro x hx
      have := hlo x hx
      omega
    · simpa [hs, ht] using htail

theorem find?_metaIndex_eq (entries : List PortEntry)
    (hnd : (entries.map (·.metaIndex)).Nodup) (e : PortEntry) (he : e ∈ entries) :
    entries.find? (fun x => x.metaIndex == e.metaIndex) = some e := by
  induction entries with
  | nil => cases he
  | cons e0 rest ih =>
    rw [List.mem_cons] at he
    by_cases h0 : (e0.metaIndex == e.metaIndex) = true
    · rcases he with rfl | he
      · exact List.find?_cons_of_pos rest h0
      · exfalso
        have heq : e0.metaIndex = e.metaIndex := eq_of_beq h0
        have : e.metaIndex ∈ rest.map (·.metaIndex) := List.mem_map_of_mem _ he
        rw [List.map_cons, List.nodup_cons] at hnd
        exact hnd.1 (heq ▸ this)
    · rcases he with rfl | he
      · exfalso
        exact h0 (by simp)
      · rw [List.find?_cons_of_neg rest h0]
        rw [List.map_cons, List.nodup_cons] at hnd
        exact ih hnd.2 he

/-! ### C3: slot structure lemmas -/

theorem mem_altIndices (metas : List ConnectionMeta) (ent : List PortEntry) (mi : Nat) :
    mi ∈ altIndices metas ent ↔
      (∃ e ∈ ent, e.metaIndex = mi) ∧
        (metaAt metas mi).conn.flowType = some FlowType.alternativeFlow := by
  simp only [altIndices, List.mem_filterMap, Option.ite_none_right_eq_some, Option.some_inj]
  constructor
  · rintro ⟨e, he, hft, hidx⟩
    rw [entryFlowType] at hft
    exact ⟨⟨e, he, hidx⟩, by rw [← hidx]; exact hft⟩
  · rintro ⟨⟨e, he, hidx⟩, hft⟩
    exact ⟨e, he, by rw [entryFlowType, hidx]; exact hft, hidx⟩

theorem mem_parIndices (metas : List ConnectionMeta) (ent : List PortEntry) (mi : Nat) :
    mi ∈ parIndices metas ent ↔
      (∃ e ∈ ent, e.metaIndex = mi) ∧
        (metaAt metas mi).conn.flowType = some FlowType.parallelFlow := by
  simp only [parIndices, List.mem_filterMap, Option.ite_none_right_eq_some, Option.some_inj]
  constructor
  · rintro ⟨e, he, hft, hidx⟩
    rw [entryFlowType] at hft
    exact ⟨⟨e, he, hidx⟩, by rw [← hidx]; exact hft⟩
  · rintro ⟨⟨e, he, hidx⟩, hft⟩
    exact ⟨e, he, by rw [entryFlowType, hidx]; exact hft, hidx⟩

theorem mem_regularSlots (metas : List ConnectionMeta) (ent : List PortEntry)
    (s : List Nat) :
    s ∈ regularSlots metas ent ↔ ∃ e ∈ ent,
      ¬(metaAt metas e.metaIndex).conn.flowType = some FlowType.alternativeFlow ∧
      ¬(metaAt metas e.metaIndex).conn.flowType = some FlowType.parallelFlow ∧
      s = [e.metaIndex] := by
  simp only [regularSlots, List.mem_filterMap, Option.ite_none_left_eq_some, Option.some_inj,
    not_or, entryFlowType]
  constructor
  · rintro ⟨e, he, ⟨hna, hnp⟩, hs⟩
    exact ⟨e, he, hna, hnp, hs.symm⟩
  · rintro ⟨e, he, hna, hnp, hs⟩
    exact ⟨e, he, ⟨hna, hnp⟩, hs.symm⟩

theorem mem_buildSlots_iff (metas : List ConnectionMeta) (ent : List PortEntry)
    (s : List Nat) :
    s ∈ buildSlots metas ent ↔ s ∈ regularSlots metas ent ∨
      (altIndices metas ent ≠ [] ∧ s = altIndices metas ent) ∨
      (parIndices metas ent ≠ [] ∧ s = parIndices metas ent) := by
  unfold buildSlots
  by_cases ha : altIndices metas ent = [] <;> by_cases hp : parIndices metas ent = [] <;>
    simp [ha, hp] <;> tauto

theorem slot_of_alt (metas : List ConnectionMeta) (ent : List PortEntry) (s : List Nat)
    (mi : Nat) (hs : s ∈ buildSlots metas ent) (hmi : mi ∈ s)
    (hft : (metaAt metas mi).conn.flowType = some FlowType.alternativeFlow) :
    s = altIndices metas ent := by
  rcases (mem_buildSlots_iff metas ent s).mp hs with hreg | ⟨-, rfl⟩ | ⟨-, rfl⟩
  · rcases (mem_regularSlots metas ent s).mp hreg with ⟨e, he, hna, hnp, rfl⟩
    rw [List.mem_singleton] at hmi
    subst hmi
    exact absurd hft hna
  · rfl
  · rcases (mem_parIndices metas ent mi).mp hmi with ⟨-, hp⟩
    rw [hft] at hp
    cases hp

theorem slot_of_par (metas : List ConnectionMeta) (ent : List PortEntry) (s : List Nat)
    (mi : Nat) (hs : s ∈ buildSlots metas ent) (hmi : mi ∈ s)
    (hft : (metaAt metas mi).conn.flowType = some FlowType.parallelFlow) :
    s = parIndices metas ent := by
  rcases (mem_buildSlots_iff metas ent s).mp hs with hreg | ⟨-, rfl⟩ | ⟨-, rfl⟩
  · rcases (mem_regularSlots metas ent s).mp hreg with ⟨e, he, hna, hnp, rfl⟩
    rw [List.mem_singleton] at hmi
    subst hmi
    exact absurd hft hnp
  · rcases (mem_altIndices metas ent mi).mp hmi with ⟨-, hp⟩
    rw [hft] at hp
    cases hp
  · rfl

theorem slot_of_regular (metas : List ConnectionMeta) (ent : List PortEntry) (s : List Nat)
    (mi : Nat) (hs : s ∈ buildSlots metas ent) (hmi : mi ∈ s)
    (hna : ¬(metaAt metas mi).conn.flowType = some FlowType.alternativeFlow)
    (hnp : ¬(metaAt metas mi).conn.flowType = some FlowType.parallelFlow) :
    s = [mi] := by
  rcases (mem_buildSlots_iff metas ent s).mp hs with hreg | ⟨-, rfl⟩ | ⟨-, rfl⟩
  · rcases (mem_regularSlots metas ent s).mp hreg with ⟨e, he, -, -, rfl⟩
    rw [List.mem_singleton] at hmi
    rw [hmi]
  · exact absurd ((mem_altIndices metas ent mi).mp hmi).2 hna
  · exact absurd ((mem_parIndices metas ent mi).mp hmi).2 hnp

theorem mem_slot_entry (metas : List ConnectionMeta) (ent : List PortEntry) (s : List Nat)
    (mi : Nat) (hs : s ∈ buildSlots metas ent) (hmi : mi ∈ s) :
    ∃ e ∈ ent, e.metaIndex = mi := by
  rcases (mem_buildSlots_iff metas ent s).mp hs with hreg | ⟨-, rfl⟩ | ⟨-, rfl⟩
  · rcases (mem_regularSlots metas ent s).mp hreg with ⟨e, he, -, -, rfl⟩
    rw [List.mem_singleton] at hmi
    exact ⟨e, he, hmi.symm⟩
  · exact ((mem_altIndices metas ent mi).mp hmi).1
  · exact ((mem_parIndices metas ent mi).mp hmi).1

theorem regularSlots_nodup (metas : List ConnectionMeta) :
    ∀ (ent : List PortEntry), ((ent.map (·.metaIndex)).Nodup) →
      (regularSlots metas ent).Nodup := by
  intro ent
  induction ent with
  | nil => intro _; simp [regularSlots]
  | cons e0 rest ih =>
    intro hnd
    rw [List.map_cons, List.nodup_cons] at hnd
    by_cases h0 : entryFlowType metas e0 = some FlowType.alternativeFlow ∨
        entryFlowType metas e0 = some FlowType.parallelFlow
    · simpa [regularSlots, List.filterMap_cons, h0] using ih hnd.2
    · simp only [regularSlots, List.filterMap_cons, h0, ite_false, if_false]
      rw [List.nodup_cons]
      refine ⟨?_, ih hnd.2⟩
      intro hmem
      rcases (mem_regularSlots metas rest _).mp hmem with ⟨e, he, -, -, heq⟩
      have : e.metaIndex = e0.metaIndex := by
        injection heq.symm
      exact hnd.1 (this ▸ List.mem_map_of_mem (·.metaIndex) he)

theorem buildSlots_nodup (metas : List ConnectionMeta) (ent : List PortEntry)
    (hnd : (ent.map (·.metaIndex)).Nodup) : (buildSlots metas ent).Nodup := by
  unfold buildSlots
  rw [List.append_assoc, List.nodup_append]
  refine ⟨regularSlots_nodup metas ent hnd, ?_, ?_⟩
  · rw [List.nodup_append]
    refine ⟨?_, ?_, ?_⟩
    · by_cases ha : altIndices metas ent = [] <;> simp [ha]
    · by_cases hp : parIndices metas ent = [] <;> simp [hp]
    · intro s hsa hsp
      by_cases ha : altIndices metas ent = [] <;> by_cases hp : parIndices metas ent = [] <;>
        simp [ha, hp] at hsa hsp
      rcases List.exists_mem_of_ne_nil _ ha with ⟨mi, hmi⟩
      have h1 := ((mem_altIndices metas ent mi).mp hmi).2
      have hmi2 : mi ∈ parIndices metas ent := by
        first
          | (rw [← hsp, hsa]; exact hmi)
          | (rw [← hsp]; exact hmi)
      have h2 := ((mem_parIndices metas ent mi).mp hmi2).2
      rw [h1] at h2
      cases h2
  · intro s hsr hsap
    rcases (mem_regularSlots metas ent s).mp hsr with ⟨e, he, hna, hnp, rfl⟩
    rw [List.mem_append] at hsap
    rcases hsap with hsa | hsp
    · by_cases ha : altIndices metas ent = []
      · simp [ha] at hsa
      · simp only [ha, ne_eq, not_false_eq_true, ite_true, if_true,
          List.mem_singleton] at hsa
        have : e.metaIndex ∈ altIndices metas ent := by
          rw [← hsa]; exact List.mem_cons_self _ _
        exact absurd ((mem_altIndices metas ent e.metaIndex).mp this).2 hna
    · by_cases hp : parIndices metas ent = []
      · simp [hp] at hsp
      · simp only [hp, ne_eq, not_false_eq_true, ite_true, if_true,
          List.mem_singleton] at hsp
        have : e.metaIndex ∈ parIndices metas ent := by
          rw [← hsp]; exact List.mem_cons_self _ _
        exact absurd ((mem_parIndices metas ent e.metaIndex).mp this).2 hnp

/-! ### C3: write assignment lemmas -/

theorem mem_slotWrites_iff (entries : List PortEntry) (el : DiagramElement) (side : Side)
    (n : Nat) :
    ∀ (slots : List (List Nat)) (k : Nat) (w : PortWrite),
      w ∈ slotWrites entries el side n slots k ↔
        ∃ j slot, slots.get? j = some slot ∧ ∃ mi e, mi ∈ slot ∧
          entries.find? (fun x => x.metaIndex == mi) = some e ∧
          w = ⟨e.isSource, mi, portPosition el side (k + j) n⟩ := by
  intro slots
  induction slots with
  | nil => intro k w; simp [slotWrites]
  | cons slot0 rest ih =>
    intro k w
    rw [exists_get?_cons slot0 rest (fun j slot => ∃ mi e, mi ∈ slot ∧
      entries.find? (fun x => x.metaIndex == mi) = some e ∧
      w = ⟨e.isSource, mi, portPosition el side (k + j) n⟩)]
    simp only [slotWrites, List.mem_append, List.mem_filterMap, ih, Option.map_eq_some']
    constructor
    · rintro (⟨mi, hmi, e, hfind, hw⟩ | ⟨j, slot, hj, mi, e, hmi, hfind, hw⟩)
      · exact Or.inl ⟨mi, e, hmi, hfind, by rw [← hw]; rfl⟩
      · refine Or.inr ⟨j, slot, hj, mi, e, hmi, hfind, ?_⟩
        rw [hw]
        have : k + 1 + j = k + (j + 1) := by omega
        rw [this]
    · rintro (⟨mi, e, hmi, hfind, hw⟩ | ⟨j, slot, hj, mi, e, hmi, hfind, hw⟩)
      · exact Or.inl ⟨mi, hmi, e, hfind, by rw [hw]; rfl⟩
      · refine Or.inr ⟨j, slot, hj, mi, e, hmi, hfind, ?_⟩
        rw [hw]
        have : k + 1 + j = k + (j + 1) := by omega
        rw [this]

theorem groupWrites_eq (metas : List ConnectionMeta) (key : String × Side)
    (e0 : PortEntry) (rest : List PortEntry) (hent : entriesFor metas key = e0 :: rest) :
    groupWrites metas key =
      slotWrites (e0 :: rest) (entryElem metas e0) key.2 (groupSlots metas key).length
        (groupSlots metas key) 0 := by
  unfold groupWrites groupSlots
  rw [hent]

theorem mem_allWrites_iff (metas : List ConnectionMeta) (w : PortWrite) :
    w ∈ allWrites metas ↔ ∃ key ∈ groupKeys metas, w ∈ groupWrites metas key := by
  simp [allWrites, List.mem_flatMap]

theorem key_mem_groupKeys (metas : List ConnectionMeta) (i : Nat) (b : Bool)
    (hi : i < metas.length) : entryKey metas ⟨i, b⟩ ∈ groupKeys metas := by
  rw [groupKeys, mem_firstDedup, List.mem_flatMap]
  refine ⟨metas.get ⟨i, hi⟩, List.get_mem _ _ _, ?_⟩
  have hma : metaAt metas i = metas.get ⟨i, hi⟩ :=
    metaAt_eq_of_get? _ _ _ (List.get?_eq_get hi)
  cases b <;> simp [entryKey, hma]

theorem alignedMetas_src_ne_tgt (els : List DiagramElement)
    (conns : List DiagramConnection) (hneq : ∀ c ∈ conns, c.sourceId ≠ c.targetId) :
    ∀ m ∈ alignedMetas els conns, m.source.id ≠ m.target.id := by
  intro m hm
  rcases mem_alignedMetas els conns m hm with ⟨m0, hm0, -, hs0, ht0, -⟩
  rcases mem_initialMetas els conns m0 hm0 with ⟨hcc, hls, hlt, -⟩
  rw [hs0, ht0, (lookupEl_some _ _ _ hls).2, (lookupEl_some _ _ _ hlt).2]
  exact hneq m0.conn hcc

theorem entryElem_lookup (els : List DiagramElement) (conns : List DiagramConnection)
    (e : PortEntry) (he : e.metaIndex < (alignedMetas els conns).length) :
    lookupEl els (entryKey (alignedMetas els conns) e).1
      = some (entryElem (alignedMetas els conns) e) := by
  have hget : (alignedMetas els conns).get? e.metaIndex
      = some ((alignedMetas els conns).get ⟨e.metaIndex, he⟩) := List.get?_eq_get he
  have hma : metaAt (alignedMetas els conns) e.metaIndex
      = (alignedMetas els conns).get ⟨e.metaIndex, he⟩ := metaAt_eq_of_get? _ _ _ hget
  have hm : metaAt (alignedMetas els conns) e.metaIndex ∈ alignedMetas els conns := by
    rw [hma]
    exact List.get_mem _ _ _
  rcases mem_alignedMetas els conns _ hm with ⟨m0, hm0, -, hs0, ht0, -⟩
  rcases mem_initialMetas els conns m0 hm0 with ⟨-, hls, hlt, -⟩
  rcases hb : e.isSource
  · rw [entryKey, hb, if_neg Bool.false_ne_true, entryElem, hb,
      if_neg Bool.false_ne_true, tgtKey, ht0, (lookupEl_some _ _ _ hlt).2]
    exact hlt
  · rw [entryKey, hb, if_pos rfl, entryElem, hb, if_pos rfl, srcKey, hs0,
      (lookupEl_some _ _ _ hls).2]
    exact hls

theorem getLast?_eq_of_forall_eq (l : List α) (hne : l ≠ []) (v : α)
    (h : ∀ x ∈ l, x = v) : l.getLast? = some v := by
  induction l with
  | nil => exact absurd rfl hne
  | cons a t ih =>
    cases t with
    | nil =>
      rw [List.getLast?_singleton]
      rw [h a (List.mem_cons_self _ _)]
    | cons b t' =>
      rw [List.getLast?_cons_cons]
      exact ih (by simp) fun x hx => h x (List.mem_cons_of_mem a hx)

theorem get?_inj_of_nodup (l : List α) (hnd : l.Nodup) (i j : Nat) (a : α)
    (hi : l.get? i = some a) (hj : l.get? j = some a) : i = j := by
  rcases List.get?_eq_some.mp hi with ⟨hi', hig⟩
  rcases List.get?_eq_some.mp hj with ⟨hj', hjg⟩
  have heq : l.get ⟨i, hi'⟩ = l.get ⟨j, hj'⟩ := by rw [hig, hjg]
  have := (List.Nodup.get_inj_iff hnd (i := ⟨i, hi'⟩) (j := ⟨j, hj'⟩)).mp heq
  exact congrArg Fin.val this

theorem portPosition_ne (el : DiagramElement) (side : Side) (hw : 0 < el.width)
    (hh : 0 < el.height) (k1 k2 n : Nat) (hk : k1 ≠ k2) :
    portPosition el side k1 n ≠ portPosition el side k2 n := by
  have hmain : ∀ span : ℚ, 0 < span →
      span / ((n : ℚ) + 1) * ((k1 : ℚ) + 1) = span / ((n : ℚ) + 1) * ((k2 : ℚ) + 1) →
      False := by
    intro span hs heq
    have hpos : (0 : ℚ) < span / ((n : ℚ) + 1) := div_pos hs (by positivity)
    have hmul := mul_left_cancel₀ (ne_of_gt hpos) heq
    have hc : (k1 : ℚ) = k2 := by linarith
    exact hk (Nat.cast_injective hc)
  intro heq
  cases side <;> simp only [portPosition, Point.mk.injEq] at heq
  · exact hmain el.width hw (add_left_cancel heq.1)
  · exact hmain el.width hw (add_left_cancel heq.1)
  · exact hmain el.height hh (add_left_cancel heq.2)
  · exact hmain el.height hh (add_left_cancel heq.2)

theorem groupWrites_nil (metas : List ConnectionMeta) (key : String × Side)
    (hent : entriesFor metas key = []) : groupWrites metas key = [] := by
  unfold groupWrites
  rw [hent]

theorem entriesFor_nodup_of_neq (els : List DiagramElement) (conns : List DiagramConnection)
    (hneq : ∀ c ∈ conns, c.sourceId ≠ c.targetId) (key : String × Side) :
    ((entriesFor (alignedMetas els conns) key).map (·.metaIndex)).Nodup := by
  apply entriesFor_nodup
  intro m hm hcontra
  rcases hcontra with ⟨hs, ht⟩
  apply alignedMetas_src_ne_tgt els conns hneq m hm
  have h1 : m.source.id = key.1 := congrArg Prod.fst hs
  have h2 : m.target.id = key.1 := congrArg Prod.fst ht
  rw [h1, h2]

theorem slot_unique (metas : List ConnectionMeta) (ent : List PortEntry) (s1 s2 : List Nat)
    (mi : Nat) (h1 : s1 ∈ buildSlots metas ent) (h2 : s2 ∈ buildSlots metas ent)
    (hm1 : mi ∈ s1) (hm2 : mi ∈ s2) : s1 = s2 := by
  by_cases ha : (metaAt metas mi).conn.flowType = some FlowType.alternativeFlow
  · rw [slot_of_alt metas ent s1 mi h1 hm1 ha, slot_of_alt metas ent s2 mi h2 hm2 ha]
  · by_cases hp : (metaAt metas mi).conn.flowType = some FlowType.parallelFlow
    · rw [slot_of_par metas ent s1 mi h1 hm1 hp, slot_of_par metas ent s2 mi h2 hm2 hp]
    · rw [slot_of_regular metas ent s1 mi h1 hm1 ha hp,
        slot_of_regular metas ent s2 mi h2 hm2 ha hp]

theorem exists_slot_mem (metas : List ConnectionMeta) (ent : List PortEntry) (e : PortEntry)
    (he : e ∈ ent) : ∃ s ∈ buildSlots metas ent, e.metaIndex ∈ s := by
  by_cases ha : (metaAt metas e.metaIndex).conn.flowType = some FlowType.alternativeFlow
  · have hmem : e.metaIndex ∈ altIndices metas ent :=
      (mem_altIndices metas ent e.metaIndex).mpr ⟨⟨e, he, rfl⟩, ha⟩
    exact ⟨altIndices metas ent, (mem_buildSlots_iff metas ent _).mpr
      (Or.inr (Or.inl ⟨List.ne_nil_of_mem hmem, rfl⟩)), hmem⟩
  · by_cases hp : (metaAt metas e.metaIndex).conn.flowType = some FlowType.parallelFlow
    · have hmem : e.metaIndex ∈ parIndices metas ent :=
        (mem_parIndices metas ent e.metaIndex).mpr ⟨⟨e, he, rfl⟩, hp⟩
      exact ⟨parIndices metas ent, (mem_buildSlots_iff metas ent _).mpr
        (Or.inr (Or.inr ⟨List.ne_nil_of_mem hmem, rfl⟩)), hmem⟩
    · exact ⟨[e.metaIndex], (mem_buildSlots_iff metas ent _).mpr
        (Or.inl ((mem_regularSlots metas ent _).mpr ⟨e, he, ha, hp, rfl⟩)),
        List.mem_singleton_self _⟩

theorem groupSlots_nodup (els : List DiagramElement) (conns : List DiagramConnection)
    (hneq : ∀ c ∈ conns, c.sourceId ≠ c.targetId) (key : String × Side) :
    (groupSlots (alignedMetas els conns) key).Nodup := by
  have hnd := entriesFor_nodup_of_neq els conns hneq key
  unfold groupSlots sortedSlots
  exact (buildSlots_nodup _ _ hnd).perm (List.perm_insertionSort _ _).symm

theorem mem_groupSlots_buildSlots (metas : List ConnectionMeta) (key : String × Side)
    (s : List Nat) :
    s ∈ groupSlots metas key ↔ s ∈ buildSlots metas (entriesFor metas key) := by
  unfold groupSlots sortedSlots
  exact (List.perm_insertionSort _ _).mem_iff

theorem entryElem_eq_of_key_eq (els : List DiagramElement) (conns : List DiagramConnection)
    (e1 e2 : PortEntry) (h1 : e1.metaIndex < (alignedMetas els conns).length)
    (h2 : e2.metaIndex < (alignedMetas els conns).length)
    (hk : (entryKey (alignedMetas els conns) e1).1 = (entryKey (alignedMetas els conns) e2).1) :
    entryElem (alignedMetas els conns) e1 = entryElem (alignedMetas els conns) e2 := by
  have ha := entryElem_lookup els conns e1 h1
  have hb := entryElem_lookup els conns e2 h2
  rw [hk] at ha
  rw [ha] at hb
  exact Option.some_inj.mp hb

theorem allWrites_point_eq (els : List DiagramElement) (conns : List DiagramConnection)
    (hneq : ∀ c ∈ conns, c.sourceId ≠ c.targetId) (e : PortEntry)
    (he : e.metaIndex < (alignedMetas els conns).length) (s : List Nat) (j : Nat)
    (hsj : (groupSlots (alignedMetas els conns)
      (entryKey (alignedMetas els conns) e)).get? j = some s)
    (hms : e.metaIndex ∈ s) (w : PortWrite) (hw : w ∈ allWrites (alignedMetas els conns))
    (hwi : w.metaIndex = e.metaIndex) (hws : w.isSource = e.isSource) :
    w.point = portPosition (entryElem (alignedMetas els conns) e)
      (entryKey (alignedMetas els conns) e).2 j
      (groupSlots (alignedMetas els conns) (entryKey (alignedMetas els conns) e)).length := by
  set metas := alignedMetas els conns with hmetas
  rcases (mem_allWrites_iff metas w).mp hw with ⟨key', hkey', hwg⟩
  rcases hent' : entriesFor metas key' with _ | ⟨e0, rest⟩
  · rw [groupWrites_nil metas key' hent'] at hwg
    cases hwg
  · rw [groupWrites_eq metas key' e0 rest hent'] at hwg
    rcases (mem_slotWrites_iff (e0 :: rest) (entryElem metas e0) key'.2
        (groupSlots metas key').length (groupSlots metas key') 0 w).mp hwg with
      ⟨j', slot', hj', mi, e', hmi, hfind', hw'⟩
    have hwmi : w.metaIndex = mi := by rw [hw']
    have hwsrc : w.isSource = e'.isSource := by rw [hw']
    have hbeq : (e'.metaIndex == mi) = true := by simpa using List.find?_some hfind'
    have he'mem : e' ∈ entriesFor metas key' := by
      rw [hent']
      exact List.mem_of_find?_eq_some hfind'
    have he'idx : e'.metaIndex = e.metaIndex := by
      rw [eq_of_beq hbeq, ← hwmi]
      exact hwi
    have he'e : e' = e := by
      have hsrc : e'.isSource = e.isSource := by rw [← hwsrc, hws]
      calc e' = ⟨e'.metaIndex, e'.isSource⟩ := rfl
        _ = ⟨e.metaIndex, e.isSource⟩ := by rw [he'idx, hsrc]
        _ = e := rfl
    have hmieq : mi = e.metaIndex := by
      rw [← eq_of_beq hbeq]
      exact he'idx
    subst e'
    have hkey'eq : entryKey metas e = key' := mem_entriesFor_key metas key' e he'mem
    rw [hkey'eq] at hsj ⊢
    have hslot'mem : slot' ∈ buildSlots metas (entriesFor metas key') :=
      (mem_groupSlots_buildSlots metas key' slot').mp (List.get?_mem hj')
    have hsmem : s ∈ buildSlots metas (entriesFor metas key') :=
      (mem_groupSlots_buildSlots metas key' s).mp (List.get?_mem hsj)
    have hmi2 : e.metaIndex ∈ slot' := hmieq ▸ hmi
    have hss : slot' = s :=
      slot_unique metas (entriesFor metas key') slot' s e.metaIndex hslot'mem hsmem hmi2 hms
    rw [hss] at hj'
    have hjj : j = j' :=
      get?_inj_of_nodup _ (groupSlots_nodup els conns hneq key') j j' s hsj hj'
    have he0mem : e0 ∈ entriesFor metas key' := by
      rw [hent']
      exact List.mem_cons_self _ _
    have hel : entryElem metas e0 = entryElem metas e := by
      apply entryElem_eq_of_key_eq els conns e0 e
        (mem_entriesFor_index_lt metas key' e0 he0mem) he
      rw [mem_entriesFor_key metas key' e0 he0mem, hkey'eq]
    have hpt : w.point = portPosition (entryElem metas e0) key'.2 (0 + j')
        (groupSlots metas key').length := by rw [hw']
    rw [Nat.zero_add] at hpt
    rw [hpt, hel, hjj]

theorem portOf_formula (els : List DiagramElement) (conns : List DiagramConnection)
    (hneq : ∀ c ∈ conns, c.sourceId ≠ c.targetId) (e : PortEntry)
    (he : e.metaIndex < (alignedMetas els conns).length) (s : List Nat) (j : Nat)
    (hsj : (groupSlots (alignedMetas els conns)
      (entryKey (alignedMetas els conns) e)).get? j = some s)
    (hms : e.metaIndex ∈ s) :
    portOf (allWrites (alignedMetas els conns)) e =
      some (portPosition (entryElem (alignedMetas els conns) e)
        (entryKey (alignedMetas els conns) e).2 j
        (groupSlots (alignedMetas els conns) (entryKey (alignedMetas els conns) e)).length) := by
  set metas := alignedMetas els conns with hmetas
  set key := entryKey metas e with hkey
  have hself : e ∈ entriesFor metas key := entriesFor_self_mem metas e.metaIndex e.isSource he
  rcases hent : entriesFor metas key with _ | ⟨e0, rest⟩
  · rw [hent] at hself
    cases hself
  · have hnd : ((entriesFor metas key).map (·.metaIndex)).Nodup :=
      entriesFor_nodup_of_neq els conns hneq key
    have hfind : (e0 :: rest).find? (fun x => x.metaIndex == e.metaIndex) = some e := by
      rw [← hent]
      exact find?_metaIndex_eq _ hnd e hself
    have he0mem : e0 ∈ entriesFor metas key := by
      rw [hent]
      exact List.mem_cons_self _ _
    have hel : entryElem metas e0 = entryElem metas e := by
      apply entryElem_eq_of_key_eq els conns e0 e
        (mem_entriesFor_index_lt metas key e0 he0mem) he
      rw [mem_entriesFor_key metas key e0 he0mem, hkey]
    have hwmem : (⟨e.isSource, e.metaIndex, portPosition (entryElem metas e0) key.2 (0 + j)
        (groupSlots metas key).length⟩ : PortWrite) ∈ allWrites metas := by
      rw [mem_allWrites_iff]
      refine ⟨key, ?_, ?_⟩
      · exact key_mem_groupKeys metas e.metaIndex e.isSource he
      · rw [groupWrites_eq metas key e0 rest hent, mem_slotWrites_iff]
        exact ⟨j, s, hsj, e.metaIndex, e, hms, hfind, rfl⟩
    have hw0 : (⟨e.isSource, e.metaIndex, portPosition (entryElem metas e) key.2 j
        (groupSlots metas key).length⟩ : PortWrite) ∈ allWrites metas := by
      simpa [hel] using hwmem
    rcases hb : e.isSource
    · rw [portOf, hb, if_neg Bool.false_ne_true, targetPortOf]
      refine getLast?_eq_of_forall_eq _ ?_ _ ?_
      · have hfilt : (⟨e.isSource, e.metaIndex, portPosition (entryElem metas e) key.2 j
            (groupSlots metas key).length⟩ : PortWrite) ∈
            (allWrites metas).filter (fun w => !w.isSource && w.metaIndex == e.metaIndex) :=
          List.mem_filter.mpr ⟨hw0, by simp [hb]⟩
        exact List.ne_nil_of_mem (List.mem_map_of_mem _ hfilt)
      · intro p hp
        rcases List.mem_map.mp hp with ⟨w, hwf, hpt⟩
        rcases List.mem_filter.mp hwf with ⟨hwa, hpred⟩
        simp only [Bool.and_eq_true, Bool.not_eq_true', beq_iff_eq] at hpred
        rw [← hpt]
        exact allWrites_point_eq els conns hneq e he s j hsj hms w hwa hpred.2
          (by rw [hpred.1, hb])
    · rw [portOf, hb, if_pos rfl, sourcePortOf]
      refine getLast?_eq_of_forall_eq _ ?_ _ ?_
      · have hfilt : (⟨e.isSource, e.metaIndex, portPosition (entryElem metas e) key.2 j
            (groupSlots metas key).length⟩ : PortWrite) ∈
            (allWrites metas).filter (fun w => w.isSource && w.metaIndex == e.metaIndex) :=
          List.mem_filter.mpr ⟨hw0, by simp [hb]⟩
        exact List.ne_nil_of_mem (List.mem_map_of_mem _ hfilt)
      · intro p hp
        rcases List.mem_map.mp hp with ⟨w, hwf, hpt⟩
        rcases List.mem_filter.mp hwf with ⟨hwa, hpred⟩
        simp only [Bool.and_eq_true, beq_iff_eq] at hpred
        rw [← hpt]
        exact allWrites_point_eq els conns hneq e he s j hsj hms w hwa hpred.2
          (by rw [hpred.1, hb])

theorem portOf_eq_of_same_slot (els : List DiagramElement) (conns : List DiagramConnection)
    (hneq : ∀ c ∈ conns, c.sourceId ≠ c.targetId) (e1 e2 : PortEntry)
    (h1 : e1.metaIndex < (alignedMetas els conns).length)
    (h2 : e2.metaIndex < (alignedMetas els conns).length)
    (hkey : entryKey (alignedMetas els conns) e1 = entryKey (alignedMetas els conns) e2)
    (s : List Nat)
    (hs : s ∈ buildSlots (alignedMetas els conns)
      (entriesFor (alignedMetas els conns) (entryKey (alignedMetas els conns) e1)))
    (hm1 : e1.metaIndex ∈ s) (hm2 : e2.metaIndex ∈ s) :
    portOf (allWrites (alignedMetas els conns)) e1
      = portOf (allWrites (alignedMetas els conns)) e2 := by
  obtain ⟨j, hj⟩ := List.get?_of_mem ((mem_groupSlots_buildSlots (alignedMetas els conns)
    (entryKey (alignedMetas els conns) e1) s).mpr hs)
  rw [portOf_formula els conns hneq e1 h1 s j hj hm1,
    portOf_formula els conns hneq e2 h2 s j (by rw [← hkey]; exact hj) hm2,
    entryElem_eq_of_key_eq els conns e1 e2 h1 h2 (congrArg Prod.fst hkey), hkey]

/-- **C3**: port sharing per (element id, side) group in `computeRouting`.
For two endpoint entries of the same group (same element id and same side),
provided every connection joins two distinct ids and every element has
positive width and height: two alternative-flow entries receive the
identical port point, two parallel-flow entries receive the identical port
point, and a regular flow / usage entry receives a port distinct from the
port of every other entry of the group. -/
theorem computeRouting_port_sharing (els : List DiagramElement)
    (conns : List DiagramConnection)
    (hneq : ∀ c ∈ conns, c.sourceId ≠ c.targetId)
    (hsz : ∀ el ∈ els, 0 < el.width ∧ 0 < el.height)
    (e1 e2 : PortEntry)
    (h1 : e1.metaIndex < (alignedMetas els conns).length)
    (h2 : e2.metaIndex < (alignedMetas els conns).length)
    (hkey : entryKey (alignedMetas els conns) e1 = entryKey (alignedMetas els conns) e2) :
    ((entryFlowType (alignedMetas els conns) e1 = some FlowType.alternativeFlow ∧
        entryFlowType (alignedMetas els conns) e2 = some FlowType.alternativeFlow) →
      portOf (allWrites (alignedMetas els conns)) e1
        = portOf (allWrites (alignedMetas els conns)) e2) ∧
    ((entryFlowType (alignedMetas els conns) e1 = some FlowType.parallelFlow ∧
        entryFlowType (alignedMetas els conns) e2 = some FlowType.parallelFlow) →
      portOf (allWrites (alignedMetas els conns)) e1
        = portOf (allWrites (alignedMetas els conns)) e2) ∧
    ((entryFlowType (alignedMetas els conns) e1 ≠ some FlowType.alternativeFlow ∧
        entryFlowType (alignedMetas els conns) e1 ≠ some FlowType.parallelFlow ∧
        e1 ≠ e2) →
      portOf (allWrites (alignedMetas els conns)) e1
          ≠ portOf (allWrites (alignedMetas els conns)) e2 ∧
        (portOf (allWrites (alignedMetas els conns)) e1).isSome = true ∧
        (portOf (allWrites (alignedMetas els conns)) e2).isSome = true) := by
  have hg1 : e1 ∈ entriesFor (alignedMetas els conns) (entryKey (alignedMetas els conns) e1) :=
    entriesFor_self_mem _ e1.metaIndex e1.isSource h1
  have hg2 : e2 ∈ entriesFor (alignedMetas els conns) (entryKey (alignedMetas els conns) e1) := by
    rw [hkey]
    exact entriesFor_self_mem _ e2.metaIndex e2.isSource h2
  have helem : entryElem (alignedMetas els conns) e1 = entryElem (alignedMetas els conns) e2 :=
    entryElem_eq_of_key_eq els conns e1 e2 h1 h2 (congrArg Prod.fst hkey)
  refine ⟨?_, ?_, ?_⟩
  · rintro ⟨ha1, ha2⟩
    have hm1 : e1.metaIndex ∈ altIndices (alignedMetas els conns)
        (entriesFor (alignedMetas els conns) (entryKey (alignedMetas els conns) e1)) :=
      (mem_altIndices _ _ _).mpr ⟨⟨e1, hg1, rfl⟩, ha1⟩
    have hm2 : e2.metaIndex ∈ altIndices (alignedMetas els conns)
        (entriesFor (alignedMetas els conns) (entryKey (alignedMetas els conns) e1)) :=
      (mem_altIndices _ _ _).mpr ⟨⟨e2, hg2, rfl⟩, ha2⟩
    exact portOf_eq_of_same_slot els conns hneq e1 e2 h1 h2 hkey _
      ((mem_buildSlots_iff _ _ _).mpr (Or.inr (Or.inl ⟨List.ne_nil_of_mem hm1, rfl⟩))) hm1 hm2
  · rintro ⟨ha1, ha2⟩
    have hm1 : e1.metaIndex ∈ parIndices (alignedMetas els conns)
        (entriesFor (alignedMetas els conns) (entryKey (alignedMetas els conns) e1)) :=
      (mem_parIndices _ _ _).mpr ⟨⟨e1, hg1, rfl⟩, ha1⟩
    have hm2 : e2.metaIndex ∈ parIndices (alignedMetas els conns)
        (entriesFor (alignedMetas els conns) (entryKey (alignedMetas els conns) e1)) :=
      (mem_parIndices _ _ _).mpr ⟨⟨e2, hg2, rfl⟩, ha2⟩
    exact portOf_eq_of_same_slot els conns hneq e1 e2 h1 h2 hkey _
      ((mem_buildSlots_iff _ _ _).mpr (Or.inr (Or.inr ⟨List.ne_nil_of_mem hm1, rfl⟩))) hm1 hm2
  · rintro ⟨hna, hnp, hne12⟩
    have hnd := entriesFor_nodup_of_neq els conns hneq (entryKey (alignedMetas els conns) e1)
    have hidx : e1.metaIndex ≠ e2.metaIndex := by
      intro heq
      apply hne12
      have f1 := find?_metaIndex_eq _ hnd e1 hg1
      have f2 := find?_metaIndex_eq _ hnd e2 hg2
      rw [← heq] at f2
      rw [f1] at f2
      exact Option.some_inj.mp f2
    have hs1mem : [e1.metaIndex] ∈ buildSlots (alignedMetas els conns)
        (entriesFor (alignedMetas els conns) (entryKey (alignedMetas els conns) e1)) :=
      (mem_buildSlots_iff _ _ _).mpr
        (Or.inl ((mem_regularSlots _ _ _).mpr ⟨e1, hg1, hna, hnp, rfl⟩))
    obtain ⟨s2, hs2mem, hm2s⟩ := exists_slot_mem (alignedMetas els conns) _ e2 hg2
    obtain ⟨j1, hj1⟩ := List.get?_of_mem ((mem_groupSlots_buildSlots _ _ _).mpr hs1mem)
    obtain ⟨j2, hj2⟩ := List.get?_of_mem ((mem_groupSlots_buildSlots _ _ _).mpr hs2mem)
    have hp1 := portOf_formula els conns hneq e1 h1 [e1.metaIndex] j1 hj1
      (List.mem_singleton_self _)
    have hp2 := portOf_formula els conns hneq e2 h2 s2 j2 (by rw [← hkey]; exact hj2) hm2s
    have hsne : ([e1.metaIndex] : List Nat) ≠ s2 := by
      intro hss
      rw [← hss] at hm2s
      rw [List.mem_singleton] at hm2s
      exact hidx hm2s.symm
    have hjne : j1 ≠ j2 := by
      intro hjj
      apply hsne
      rw [hjj] at hj1
      rw [hj1] at hj2
      exact Option.some_inj.mp hj2
    have hmemel : entryElem (alignedMetas els conns) e1 ∈ els :=
      (lookupEl_some _ _ _ (entryElem_lookup els conns e1 h1)).1
    obtain ⟨hwd, hht⟩ := hsz _ hmemel
    have hppne := portPosition_ne (entryElem (alignedMetas els conns) e1)
      (entryKey (alignedMetas els conns) e1).2 hwd hht j1 j2
      (groupSlots (alignedMetas els conns) (entryKey (alignedMetas els conns) e1)).length hjne
    refine ⟨?_, ?_, ?_⟩
    · rw [hp1, hp2, ← helem, ← hkey]
      intro hcon
      exact hppne (Option.some_inj.mp hcon)
    · rw [hp1]
      rfl
    · rw [hp2]
      rfl

/-- Witness for the port-sharing theorem: in the example diagram, the first
two alternative flows get the identical source port, while the regular flow
and the usage get distinct source ports. -/
theorem computeRouting_port_sharing_witness :
    portOf (allWrites (alignedMetas portShareEls portShareConns)) ⟨0, true⟩
        = portOf (allWrites (alignedMetas portShareEls portShareConns)) ⟨1, true⟩ ∧
      (portOf (allWrites (alignedMetas portShareEls portShareConns)) ⟨3, true⟩
          ≠ portOf (allWrites (alignedMetas portShareEls portShareConns)) ⟨4, true⟩ ∧
        (portOf (allWrites (alignedMetas portShareEls portShareConns)) ⟨3, true⟩).isSome
          = true ∧
        (portOf (allWrites (alignedMetas portShareEls portShareConns)) ⟨4, true⟩).isSome
          = true) :=
  ⟨(computeRouting_port_sharing portShareEls portShareConns (by decide)
      (by intro el hel; fin_cases hel <;> exact ⟨by norm_num, by norm_num⟩)
      ⟨0, true⟩ ⟨1, true⟩ (by decide) (by decide) (by decide)).1 (by decide),
   (computeRouting_port_sharing portShareEls portShareConns (by decide)
      (by intro el hel; fin_cases hel <;> exact ⟨by norm_num, by norm_num⟩)
      ⟨3, true⟩ ⟨4, true⟩ (by decide) (by decide) (by decide)).2.2 (by decide)⟩

/-! ### C10: element and connection provenance through the layout phases -/

theorem mem_groupByKey_snd [DecidableEq κ] (l : List (α × κ)) (entry : κ × List α)
    (hent : entry ∈ groupByKey l) (a : α) (ha : a ∈ entry.2) : ∃ p ∈ l, p.1 = a := by
  unfold groupByKey at hent
  rcases List.mem_map.mp hent with ⟨k, hk, hkeq⟩
  subst hkeq
  rcases List.mem_map.mp ha with ⟨p, hp, hpa⟩
  exact ⟨p, List.mem_of_mem_filter hp, hpa⟩

theorem sysGroups_top_sub (c : SysCore) (states : List State) :
    ∀ s ∈ (sysGroups c states).boundaryTopS, s ∈ states := fun _ hs =>
  List.mem_of_mem_filter hs

theorem sysGroups_bottom_sub (c : SysCore) (states : List State) :
    ∀ s ∈ (sysGroups c states).boundaryBottomS, s ∈ states := fun _ hs =>
  List.mem_of_mem_filter hs

theorem sysGroups_internal_sub (c : SysCore) (states : List State) :
    ∀ s ∈ (sysGroups c states).internalStatesL, s ∈ states := fun _ hs =>
  List.mem_of_mem_filter hs

theorem sysGroups_disconnected_sub (c : SysCore) (states : List State) :
    ∀ s ∈ (sysGroups c states).disconnectedStatesL, s ∈ states := fun _ hs =>
  List.mem_of_mem_filter hs

theorem sysGroups_left_sub (c : SysCore) (states : List State) :
    ∀ entry ∈ (sysGroups c states).boundaryLeftG, ∀ s ∈ entry.2, s ∈ states := by
  intro entry hent s hs
  rcases mem_groupByKey_snd _ entry hent s hs with ⟨p, hp, hpa⟩
  rcases List.mem_map.mp hp with ⟨s0, hs0, hs0p⟩
  rw [← hpa, ← hs0p]
  exact List.mem_of_mem_filter hs0

theorem sysGroups_right_sub (c : SysCore) (states : List State) :
    ∀ entry ∈ (sysGroups c states).boundaryRightG, ∀ s ∈ entry.2, s ∈ states := by
  intro entry hent s hs
  rcases mem_groupByKey_snd _ entry hent s hs with ⟨p, hp, hpa⟩
  rcases List.mem_map.mp hp with ⟨s0, hs0, hs0p⟩
  rw [← hpa, ← hs0p]
  exact List.mem_of_mem_filter hs0

theorem sysGroups_gap_sub (c : SysCore) (states : List State) :
    ∀ entry ∈ (sysGroups c states).internalsByGap, ∀ s ∈ entry.2, s ∈ states := by
  intro entry hent s hs
  rcases mem_groupByKey_snd _ entry hent s hs with ⟨p, hp, hpa⟩
  have hp2 := List.mem_of_mem_filter hp
  rcases List.mem_map.mp hp2 with ⟨s0, hs0, hs0p⟩
  rw [← hpa, ← hs0p]
  exact List.mem_of_mem_filter hs0

theorem sysGroups_backward_sub (c : SysCore) (states : List State) :
    ∀ s ∈ (sysGroups c states).backwardInternals, s ∈ states := by
  intro s hs
  rcases List.mem_map.mp hs with ⟨p, hp, hpa⟩
  have hp2 := List.mem_of_mem_filter hp
  rcases List.mem_map.mp hp2 with ⟨s0, hs0, hs0p⟩
  rw [← hpa, ← hs0p]
  exact List.mem_of_mem_filter hs0

theorem mem_rowPlaceStates (e : DiagramElement) :
    ∀ (l : List State) (x y g : ℚ), e ∈ rowPlaceStates x y g l → ∃ s ∈ l, e.id = s.id := by
  intro l
  induction l with
  | nil =>
    intro x y g h
    simp [rowPlaceStates] at h
  | cons s0 rest ih =>
    intro x y g h
    simp only [rowPlaceStates] at h
    rw [List.mem_cons] at h
    rcases h with rfl | h
    · exact ⟨s0, List.mem_cons_self _ _, rfl⟩
    · rcases ih _ _ _ h with ⟨s, hs, hid⟩
      exact ⟨s, List.mem_cons_of_mem _ hs, hid⟩

theorem mem_rowPlacePOs (e : DiagramElement) :
    ∀ (l : List ProcessOperator) (x y g : ℚ), e ∈ rowPlacePOs x y g l →
      ∃ p ∈ l, e.id = p.id := by
  intro l
  induction l with
  | nil =>
    intro x y g h
    simp [rowPlacePOs] at h
  | cons p0 rest ih =>
    intro x y g h
    simp only [rowPlacePOs] at h
    rw [List.mem_cons] at h
    rcases h with rfl | h
    · exact ⟨p0, List.mem_cons_self _ _, rfl⟩
    · rcases ih _ _ _ h with ⟨p, hp, hid⟩
      exact ⟨p, List.mem_cons_of_mem _ hp, hid⟩

theorem mem_poElemsOf (c : SysCore) (pos : List ProcessOperator) (x : ℚ) (rowY : Nat → ℚ)
    (e : DiagramElement) (h : e ∈ poElemsOf c pos x rowY) : ∃ p ∈ pos, e.id = p.id := by
  unfold poElemsOf at h
  rcases List.mem_filterMap.mp h with ⟨poId, hpo, hmap⟩
  rcases Option.map_eq_some'.mp hmap with ⟨po, hfind, hpe⟩
  exact ⟨po, List.mem_of_find?_eq_some hfind, by rw [← hpe]⟩

theorem mem_forwardElemsOf (gr : SysGroups) (poRowYL : List (Nat × ℚ)) (sy cx : ℚ)
    (cfg : LayoutConfig) (e : DiagramElement) (h : e ∈ forwardElemsOf gr poRowYL sy cx cfg) :
    ∃ entry ∈ gr.internalsByGap, ∃ s ∈ entry.2, e.id = s.id := by
  unfold forwardElemsOf at h
  rcases List.mem_flatMap.mp h with ⟨entry, hent, he⟩
  rcases List.mem_map.mp he with ⟨p, hp, hpe⟩
  exact ⟨entry, hent, p.1, (List.of_mem_zip hp).1, by rw [← hpe]⟩

theorem mem_backwardElemsOf (c : SysCore) (gr : SysGroups) (rowY : Nat → ℚ) (fx : ℚ)
    (e : DiagramElement) (h : e ∈ backwardElemsOf c gr rowY fx) :
    ∃ s ∈ gr.backwardInternals, e.id = s.id := by
  unfold backwardElemsOf at h
  rcases List.mem_map.mp h with ⟨s, hs, hse⟩
  exact ⟨s, hs, by rw [← hse]⟩

theorem mem_boundaryElemsOf (gr : SysGroups) (sl? : Option SLBox) (rowY : Nat → ℚ)
    (cfg : LayoutConfig) (e : DiagramElement) (h : e ∈ boundaryElemsOf gr sl? rowY cfg) :
    (∃ s ∈ gr.boundaryTopS, e.id = s.id) ∨ (∃ s ∈ gr.boundaryBottomS, e.id = s.id) ∨
      (∃ entry ∈ gr.boundaryLeftG, ∃ s ∈ entry.2, e.id = s.id) ∨
      (∃ entry ∈ gr.boundaryRightG, ∃ s ∈ entry.2, e.id = s.id) := by
  unfold boundaryElemsOf at h
  rcases sl? with _ | sl
  · cases h
  · simp only [List.mem_append] at h
    rcases h with ((h | h) | h) | h
    · rcases List.mem_map.mp h with ⟨p, hp, hpe⟩
      exact Or.inl ⟨p.1, (List.of_mem_zip hp).1, by rw [← hpe]⟩
    · rcases List.mem_map.mp h with ⟨p, hp, hpe⟩
      exact Or.inr (Or.inl ⟨p.1, (List.of_mem_zip hp).1, by rw [← hpe]⟩)
    · rcases List.mem_flatMap.mp h with ⟨entry, hent, he⟩
      rcases List.mem_map.mp he with ⟨p, hp, hpe⟩
      exact Or.inr (Or.inr (Or.inl ⟨entry, hent, p.1, (List.of_mem_zip hp).1, by rw [← hpe]⟩))
    · rcases List.mem_flatMap.mp h with ⟨entry, hent, he⟩
      rcases List.mem_map.mp he with ⟨p, hp, hpe⟩
      exact Or.inr (Or.inr (Or.inr ⟨entry, hent, p.1, (List.of_mem_zip hp).1, by rw [← hpe]⟩))

theorem mem_trElemsOf (c : SysCore) (trs : List TechnicalResource)
    (poElems : List DiagramElement) (tx : ℚ) (rowY : Nat → ℚ) (cfg : LayoutConfig)
    (e : DiagramElement) (h : e ∈ trElemsOf c trs poElems tx rowY cfg) :
    ∃ r ∈ trs, e.id = r.id := by
  unfold trElemsOf at h
  rcases List.mem_map.mp h with ⟨p, hp, hpe⟩
  refine ⟨p.2, ?_, by rw [← hpe]⟩
  unfold withIdx at hp
  exact (List.of_mem_zip hp).2

theorem mem_dedupElementsAux (l : List DiagramElement) :
    ∀ (seen : List String) (e : DiagramElement), e ∈ dedupElementsAux seen l → e ∈ l := by
  induction l with
  | nil => intro seen e h; exact h
  | cons a t ih =>
    intro seen e h
    by_cases ha : a.id ∈ seen
    · simp only [dedupElementsAux] at h
      rw [if_pos ha] at h
      exact List.mem_cons_of_mem a (ih seen e h)
    · simp only [dedupElementsAux] at h
      rw [if_neg ha] at h
      rw [List.mem_cons] at h
      rcases h with rfl | h
      · exact List.mem_cons_self _ _
      · exact List.mem_cons_of_mem a (ih _ e h)

theorem mem_deduplicateElements (elements : List DiagramElement) (e : DiagramElement)
    (h : e ∈ deduplicateElements elements) : e ∈ elements :=
  mem_dedupElementsAux elements [] e h

theorem mem_layoutSingleSystem_elements (states : List State) (pos : List ProcessOperator)
    (trs : List TechnicalResource) (flows : List Flow) (usages : List Usage)
    (cfg : LayoutConfig) (ox oy : ℚ) (e : DiagramElement)
    (h : e ∈ (layoutSingleSystem states pos trs flows usages cfg ox oy).elements) :
    (∃ s ∈ states, e.id = s.id) ∨ (∃ p ∈ pos, e.id = p.id) ∨ (∃ r ∈ trs, e.id = r.id) := by
  unfold layoutSingleSystem at h
  by_cases hemp : (states.isEmpty && pos.isEmpty) = true
  · rw [if_pos hemp] at h
    cases h
  · rw [if_neg hemp] at h
    simp only [List.mem_append] at h
    rcases h with ((((h | h) | h) | h) | h) | h | h
    · exact Or.inr (Or.inl (mem_poElemsOf _ _ _ _ e h))
    · rcases mem_forwardElemsOf _ _ _ _ _ e h with ⟨entry, hent, s, hs, hid⟩
      exact Or.inl ⟨s, sysGroups_gap_sub _ _ entry hent s hs, hid⟩
    · rcases mem_backwardElemsOf _ _ _ _ e h with ⟨s, hs, hid⟩
      exact Or.inl ⟨s, sysGroups_backward_sub _ _ s hs, hid⟩
    · rcases mem_boundaryElemsOf _ _ _ _ e h with
        ⟨s, hs, hid⟩ | ⟨s, hs, hid⟩ | ⟨entry, hent, s, hs, hid⟩ | ⟨entry, hent, s, hs, hid⟩
      · exact Or.inl ⟨s, sysGroups_top_sub _ _ s hs, hid⟩
      · exact Or.inl ⟨s, sysGroups_bottom_sub _ _ s hs, hid⟩
      · exact Or.inl ⟨s, sysGroups_left_sub _ _ entry hent s hs, hid⟩
      · exact Or.inl ⟨s, sysGroups_right_sub _ _ entry hent s hs, hid⟩
    · rcases mem_trElemsOf _ _ _ _ _ _ e h with ⟨r, hr, hid⟩
      exact Or.inr (Or.inr ⟨r, hr, hid⟩)
    · rcases mem_rowPlaceStates e _ _ _ _ h with ⟨s, hs, hid⟩
      exact Or.inl ⟨s, sysGroups_disconnected_sub _ _ s hs, hid⟩
    · rcases mem_rowPlacePOs e _ _ _ _ h with ⟨p, hp, hid⟩
      exact Or.inr (Or.inl ⟨p, List.mem_of_mem_filter hp, hid⟩)

theorem mem_layoutSingleSystem_connections (states : List State) (pos : List ProcessOperator)
    (trs : List TechnicalResource) (flows : List Flow) (usages : List Usage)
    (cfg : LayoutConfig) (ox oy : ℚ) (cn : DiagramConnection)
    (h : cn ∈ (layoutSingleSystem states pos trs flows usages cfg ox oy).connections) :
    (∃ f ∈ flows, cn.id = f.id) ∨ (∃ u ∈ usages, cn.id = u.id) := by
  unfold layoutSingleSystem at h
  by_cases hemp : (states.isEmpty && pos.isEmpty) = true
  · rw [if_pos hemp] at h
    cases h
  · rw [if_neg hemp] at h
    simp only [List.mem_append] at h
    rcases h with h | h
    · have hm := List.mem_map_of_mem (fun c => (c.id, c.sourceId, c.targetId)) h
      rw [flowConnections_proj] at hm
      rcases List.mem_map.mp hm with ⟨f, hf, hfe⟩
      exact Or.inl ⟨f, hf, (congrArg Prod.fst hfe).symm⟩
    · have hm := List.mem_map_of_mem (fun c => (c.id, c.sourceId, c.targetId)) h
      rw [usageConnections_proj] at hm
      rcases List.mem_map.mp hm with ⟨u, hu, hue⟩
      exact Or.inr ⟨u, hu, (congrArg Prod.fst hue).symm⟩

theorem multiStep_inv (model : ProcessModel) (cfg : LayoutConfig) :
    ∀ (sls : List SystemLimit), (∀ sl ∈ sls, sl ∈ model.system_limits) →
    ∀ (acc : List DiagramElement × List DiagramConnection × List SystemLimitBounds × ℚ),
    (∀ e ∈ acc.1, ∃ sl ∈ model.system_limits,
        (∃ s ∈ model.states, s.system_id = some sl.id ∧ e.id = s.id) ∨
        (∃ p ∈ model.process_operators, p.system_id = some sl.id ∧ e.id = p.id) ∨
        (∃ r ∈ model.technical_resources, r.system_id = some sl.id ∧ e.id = r.id)) →
    (∀ cn ∈ acc.2.1, ∃ sl ∈ model.system_limits,
        (∃ f ∈ model.flows, f.system_id = some sl.id ∧ cn.id = f.id) ∨
        (∃ u ∈ model.usages, u.system_id = some sl.id ∧ cn.id = u.id)) →
    (∀ e ∈ (sls.foldl (multiSystemStep model cfg) acc).1, ∃ sl ∈ model.system_limits,
        (∃ s ∈ model.states, s.system_id = some sl.id ∧ e.id = s.id) ∨
        (∃ p ∈ model.process_operators, p.system_id = some sl.id ∧ e.id = p.id) ∨
        (∃ r ∈ model.technical_resources, r.system_id = some sl.id ∧ e.id = r.id)) ∧
    (∀ cn ∈ (sls.foldl (multiSystemStep model cfg) acc).2.1, ∃ sl ∈ model.system_limits,
        (∃ f ∈ model.flows, f.system_id = some sl.id ∧ cn.id = f.id) ∨
        (∃ u ∈ model.usages, u.system_id = some sl.id ∧ cn.id = u.id)) := by
  intro sls
  induction sls with
  | nil =>
    intro _ acc hel hcn
    exact ⟨hel, hcn⟩
  | cons sl rest ih =>
    intro hsub acc hel hcn
    rw [List.foldl_cons]
    have hsl : sl ∈ model.system_limits := hsub sl (List.mem_cons_self _ _)
    apply ih (fun x hx => hsub x (List.mem_cons_of_mem sl hx))
    · intro e he
      by_cases hc : ((sysStatesOf model sl).isEmpty && (sysPOsOf model sl).isEmpty &&
          (sysTRsOf model sl).isEmpty) = true
      · have hstep : multiSystemStep model cfg acc sl = acc := by
          unfold multiSystemStep
          rw [if_pos hc]
        rw [hstep] at he
        exact hel e he
      · have hstep : (multiSystemStep model cfg acc sl).1 = acc.1 ++
            (layoutSingleSystem (sysStatesOf model sl) (sysPOsOf model sl) (sysTRsOf model sl)
              (sysFlowsOf model sl) (sysUsagesOf model sl) cfg acc.2.2.2 0).elements := by
          unfold multiSystemStep
          rw [if_neg hc]
        rw [hstep, List.mem_append] at he
        rcases he with he | he
        · exact hel e he
        · rcases mem_layoutSingleSystem_elements _ _ _ _ _ _ _ _ e he with
            ⟨s, hs, hid⟩ | ⟨p, hp, hid⟩ | ⟨r, hr, hid⟩
          · rcases List.mem_filter.mp hs with ⟨hsm, hspred⟩
            exact ⟨sl, hsl, Or.inl ⟨s, hsm, of_decide_eq_true hspred, hid⟩⟩
          · rcases List.mem_filter.mp hp with ⟨hpm, hppred⟩
            exact ⟨sl, hsl, Or.inr (Or.inl ⟨p, hpm, of_decide_eq_true hppred, hid⟩)⟩
          · rcases List.mem_filter.mp hr with ⟨hrm, hrpred⟩
            exact ⟨sl, hsl, Or.inr (Or.inr ⟨r, hrm, of_decide_eq_true hrpred, hid⟩)⟩
    · intro cn hcn2
      by_cases hc : ((sysStatesOf model sl).isEmpty && (sysPOsOf model sl).isEmpty &&
          (sysTRsOf model sl).isEmpty) = true
      · have hstep : multiSystemStep model cfg acc sl = acc := by
          unfold multiSystemStep
          rw [if_pos hc]
        rw [hstep] at hcn2
        exact hcn cn hcn2
      · have hstep : (multiSystemStep model cfg acc sl).2.1 = acc.2.1 ++
            (layoutSingleSystem (sysStatesOf model sl) (sysPOsOf model sl) (sysTRsOf model sl)
              (sysFlowsOf model sl) (sysUsagesOf model sl) cfg acc.2.2.2 0).connections := by
          unfold multiSystemStep
          rw [if_neg hc]
        rw [hstep, List.mem_append] at hcn2
        rcases hcn2 with hcn2 | hcn2
        · exact hcn cn hcn2
        · rcases mem_layoutSingleSystem_connections _ _ _ _ _ _ _ _ cn hcn2 with
            ⟨f, hf, hid⟩ | ⟨u, hu, hid⟩
          · rcases List.mem_filter.mp hf with ⟨hfm, hfpred⟩
            exact ⟨sl, hsl, Or.inl ⟨f, hfm, of_decide_eq_true hfpred, hid⟩⟩
          · rcases List.mem_filter.mp hu with ⟨hum, hupred⟩
            exact ⟨sl, hsl, Or.inr ⟨u, hum, of_decide_eq_true hupred, hid⟩⟩

/-- **C10**: when `system_limits` is non-empty, every element of the layout
result stems from a state, process operator or technical resource whose
`system_id` equals the id of a declared sub-system, and every connection
stems from a flow or usage whose `system_id` equals the id of a declared
sub-system; entities with a missing or non-matching `system_id` contribute
nothing. -/
theorem layoutProcessModel_system_filter (model : ProcessModel) (cfg : LayoutConfig)
    (hne : model.system_limits ≠ []) :
    (∀ e ∈ (layoutProcessModel model cfg).elements, ∃ sl ∈ model.system_limits,
        (∃ s ∈ model.states, s.system_id = some sl.id ∧ e.id = s.id) ∨
        (∃ p ∈ model.process_operators, p.system_id = some sl.id ∧ e.id = p.id) ∨
        (∃ r ∈ model.technical_resources, r.system_id = some sl.id ∧ e.id = r.id)) ∧
    (∀ cn ∈ (layoutProcessModel model cfg).connections, ∃ sl ∈ model.system_limits,
        (∃ f ∈ model.flows, f.system_id = some sl.id ∧ cn.id = f.id) ∨
        (∃ u ∈ model.usages, u.system_id = some sl.id ∧ cn.id = u.id)) := by
  have hb : model.system_limits.isEmpty = false := by
    rcases hsl : model.system_limits with _ | ⟨a, t⟩
    · exact absurd hsl hne
    · rfl
  have hform : layoutProcessModel model cfg =
      { elements := deduplicateElements
          (model.system_limits.foldl (multiSystemStep model cfg) ([], [], [], 0)).1
        connections := (model.system_limits.foldl (multiSystemStep model cfg) ([], [], [], 0)).2.1
        systemLimits :=
          (model.system_limits.foldl (multiSystemStep model cfg) ([], [], [], 0)).2.2.1 } := by
    unfold layoutProcessModel
    rw [hb, if_neg Bool.false_ne_true]
  have hinv := multiStep_inv model cfg model.system_limits (fun _ hx => hx) ([], [], [], 0)
    (by intro e he; cases he) (by intro cn hcn; cases hcn)
  constructor
  · intro e he
    rw [hform] at he
    exact hinv.1 e (mem_deduplicateElements _ e he)
  · intro cn hcn
    rw [hform] at hcn
    exact hinv.2 cn hcn

/-- Witness for the system-filter theorem: a one-sub-system model with one
matching state. -/
theorem layoutProcessModel_system_filter_witness :
    (∀ e ∈ (layoutProcessModel ⟨"T", [⟨"sys1", "S"⟩],
        [⟨"S1", .product, "S1", none, none, some "sys1"⟩], [], [], [], []⟩
        DEFAULT_CONFIG).elements,
      ∃ sl ∈ [(⟨"sys1", "S"⟩ : SystemLimit)],
        (∃ s ∈ [(⟨"S1", .product, "S1", none, none, some "sys1"⟩ : State)],
          s.system_id = some sl.id ∧ e.id = s.id) ∨
        (∃ p ∈ ([] : List ProcessOperator), p.system_id = some sl.id ∧ e.id = p.id) ∨
        (∃ r ∈ ([] : List TechnicalResource), r.system_id = some sl.id ∧ e.id = r.id)) ∧
    (∀ cn ∈ (layoutProcessModel ⟨"T", [⟨"sys1", "S"⟩],
        [⟨"S1", .product, "S1", none, none, some "sys1"⟩], [], [], [], []⟩
        DEFAULT_CONFIG).connections,
      ∃ sl ∈ [(⟨"sys1", "S"⟩ : SystemLimit)],
        (∃ f ∈ ([] : List Flow), f.system_id = some sl.id ∧ cn.id = f.id) ∨
        (∃ u ∈ ([] : List Usage), u.system_id = some sl.id ∧ cn.id = u.id)) :=
  layoutProcessModel_system_filter
    ⟨"T", [⟨"sys1", "S"⟩], [⟨"S1", .product, "S1", none, none, some "sys1"⟩], [], [], [], []⟩
    DEFAULT_CONFIG (by decide)

end FPD
